import Mathlib

/-!
# go-kata: the sharded concurrent map

A shallow embedding of `02-performance-allocation/02-concurrent-map-with-sharded-locks`
(`0.main.go`: `ShardedMap`, parallel slices of locks and maps; `1.main.go`: `ShardedMap2`,
one `Bucket` per shard holding its own lock and map), followed by the properties proved
of it.

Conventions of the embedding.

* A call that Go would not return from normally (a run-time panic, or a lock that is never
  released) is an `Except.error` carrying a `Fault`; a normal return is `Except.ok`.
* Calls run one at a time. Every method takes the map and returns the map it leaves behind,
  so the lock words are part of the state and a call can be followed statement by statement.
* The key type `K comparable` is described by a `KeyType K`: Go's `==` on `K`, what the type
  switch `any(key).(type)` sees, and the text `fmt.Sprint(key)` prints. `==` is only assumed
  symmetric and transitive, since a floating-point NaN is not equal to itself. Keys are
  values on which `==` is defined, and the text printed for a key is a function of the key:
  nothing but the calls of the map happens between two calls.
* A Go `map[K]V` is a list of entries; `nil` maps and `nil` bucket pointers are `none`.
  The order in which `range` visits a map is not fixed by the language, so `Keys` takes the
  order chosen by the run time as an argument (`RangeOrder`).
* `uint64` values are natural numbers; the only arithmetic on them that can wrap is the
  hash, reduced modulo `2 ^ 64`. Memory is unbounded: an allocation the run time accepts
  never fails for want of memory. `make` of a slice does panic for a length the run time
  does not accept; the constructors with that check are `NewShardedMap.call` and
  `NewShardedMap2.call`, and `NewShardedMap`, `NewShardedMap2` are the maps they return.
-/

namespace ShardedLocks

/-! ## Faults and the read/write lock -/

/-- Reasons for which a call does not return normally. -/
inductive Fault where
  /-- Go panic: integer divide by zero. -/
  | divideByZero
  /-- Go panic: index out of range. -/
  | indexOutOfRange
  /-- Go panic: assignment to entry in nil map. -/
  | nilMapAssign
  /-- Go panic: nil pointer dereference. -/
  | nilDereference
  /-- Go fatal error: Unlock or RUnlock of an unlocked RWMutex. -/
  | unlockOfUnlocked
  /-- The lock is held and nobody is left to release it. -/
  | blocked
  /-- Go panic: makeslice: len out of range. -/
  | lenOutOfRange
  deriving DecidableEq, Repr

/-- State of a `sync.RWMutex`: how many readers hold it and whether a writer holds it. -/
structure RWMutex where
  readers : Nat
  writer : Bool
  deriving DecidableEq, Repr

/-- The zero value of `sync.RWMutex`, an unlocked mutex. -/
def RWMutex.unlocked : RWMutex := ⟨0, false⟩

/-- Go `RLock`: shared acquisition; waits while a writer holds the lock. -/
def RWMutex.RLock (m : RWMutex) : Except Fault RWMutex :=
  if m.writer then .error .blocked else .ok ⟨m.readers + 1, m.writer⟩

/-- Go `RUnlock`: undoes one `RLock`. -/
def RWMutex.RUnlock (m : RWMutex) : Except Fault RWMutex :=
  if m.readers = 0 then .error .unlockOfUnlocked else .ok ⟨m.readers - 1, m.writer⟩

/-- Go `Lock`: exclusive acquisition; waits while anybody holds the lock. -/
def RWMutex.Lock (m : RWMutex) : Except Fault RWMutex :=
  if m.writer ∨ m.readers ≠ 0 then .error .blocked else .ok ⟨m.readers, true⟩

/-- Go `Unlock`: releases the exclusive lock. -/
def RWMutex.Unlock (m : RWMutex) : Except Fault RWMutex :=
  if m.writer then .ok ⟨m.readers, false⟩ else .error .unlockOfUnlocked

/-- Go slice indexing `s[i]`, which panics when `i` is out of range. -/
def index {α : Type} (s : List α) (i : Nat) : Except Fault α :=
  match s[i]? with
  | some a => .ok a
  | none => .error .indexOutOfRange

/-- The constant `maxAlloc` of the run time, the largest size in bytes of one allocation:
`1 << 48` on a 64-bit platform such as linux/amd64. -/
def maxAlloc : Nat := 2 ^ 48

/-- Size in bytes of a `sync.RWMutex` (a `Mutex`, two semaphores and two counters). -/
def sizeofRWMutex : Nat := 24

/-- Size in bytes of a pointer on a 64-bit platform; a `map[K]V` and a `*Bucket[K, V]` are
pointers. -/
def sizeofPointer : Nat := 8

/-- The check of `make([]T, len)` for `len` of type `uint64` and `T` of `elemSize` bytes
(`runtime.makeslice`): a length that as an `int` is negative, or whose size in bytes
overflows or exceeds `maxAlloc`, panics. All three cases have `len * elemSize` above
`maxAlloc`. -/
def makeslice (elemSize len : Nat) : Except Fault Unit :=
  if maxAlloc < len * elemSize then .error .lenOutOfRange else .ok ()

/-! ## Hashing: `hash/fnv` and `encoding/binary` -/

/-- Offset basis of 64-bit FNV (`hash/fnv`, `offset64`). -/
def offset64 : Nat := 14695981039346656037

/-- Prime of 64-bit FNV (`hash/fnv`, `prime64`). -/
def prime64 : Nat := 1099511628211

/-- One round of `(*sum64a).Write`: `hash ^= uint64(c); hash *= prime64` on a `uint64`. -/
def fnvStep (hash c : Nat) : Nat :=
  ((hash ^^^ (c % 256)) * prime64) % 2 ^ 64

/-- The method `(*sum64a).Write` of `hash/fnv`: absorbs the bytes of `data` in order. -/
def fnvWrite (hash : Nat) (data : List Nat) : Nat :=
  data.foldl fnvStep hash

/-- The function `binary.LittleEndian.PutUint64`: the eight bytes of `v`, lowest first. -/
def PutUint64 (v : Nat) : List Nat :=
  (List.range 8).map (fun i => (v / 256 ^ i) % 256)

/-- Go conversion `uint64(k)` of an `int`: two's complement. -/
def uint64OfInt (k : Int) : Nat :=
  (k % 2 ^ 64).toNat

/-! ## Keys -/

/-- What the type switch `switch k := any(key).(type)` of `getShardIndex` finds. -/
inductive Dyn where
  /-- The arm `case string`, with the bytes of the string. -/
  | string (bytes : List Nat)
  /-- The arm `case int`. -/
  | int (k : Int)
  /-- The arm `case uint64`. -/
  | uint64 (k : Nat)
  /-- Any other dynamic type: the arm `default`. -/
  | other
  deriving DecidableEq, Repr

/-- A Go type usable as the type argument `K comparable`, as far as the map depends on it. -/
structure KeyType (K : Type) where
  /-- Go `==` on keys, the equality every `map[K]V` uses. -/
  eq : K → K → Bool
  /-- The dynamic type of a key as seen by the type switch. -/
  dyn : K → Dyn
  /-- The bytes of `fmt.Sprint(key)`. -/
  Sprint : K → List Nat
  /-- Go `==` is symmetric. -/
  eq_symm : ∀ a b, eq a b = true → eq b a = true
  /-- Go `==` is transitive. -/
  eq_trans : ∀ a b c, eq a b = true → eq b c = true → eq a c = true
  /-- Equal keys have the same dynamic type and, when they are strings, `int`s or `uint64`s,
  the same bytes or number. -/
  eq_dyn : ∀ a b, eq a b = true → dyn a = dyn b

/-- The body of `getShardIndex` up to `hash := h.Sum64()`; the two files have the same text
(`0.main.go` lines 36-53, `1.main.go` lines 38-55). -/
def hashKey {K : Type} (T : KeyType K) (key : K) : Nat :=
  let h := offset64
  match T.dyn key with
  | .string k => fnvWrite h k
  | .int k => fnvWrite h (PutUint64 (uint64OfInt k))
  | .uint64 k => fnvWrite h (PutUint64 k)
  | .other => fnvWrite h (T.Sprint key)

/-- The last line of `getShardIndex`, `hash % sm.numShards` on `uint64`. -/
def modShards (hash numShards : Nat) : Except Fault Nat :=
  if numShards = 0 then .error .divideByZero else .ok (hash % numShards)

/-! ## Go maps -/

/-- Go `v, ok := m[key]` on the entries of a map. -/
def mapaccess2 {K V : Type} [Inhabited V] (T : KeyType K) : List (K × V) → K → V × Bool
  | [], _ => (default, false)
  | (k, v) :: m, key => if T.eq k key then (v, true) else mapaccess2 T m key

/-- Go `m[key] = value` on the entries of a map: the entry of an equal key is overwritten
(key included, as the run time does for keys such as floats), else an entry is added. -/
def mapassign {K V : Type} (T : KeyType K) : List (K × V) → K → V → List (K × V)
  | [], key, value => [(key, value)]
  | (k, v) :: m, key, value =>
    if T.eq k key then (key, value) :: m else (k, v) :: mapassign T m key value

/-- Go `delete(m, key)` on the entries of a map. -/
def mapdelete {K V : Type} (T : KeyType K) (m : List (K × V)) (key : K) : List (K × V) :=
  m.filter (fun e => !T.eq e.1 key)

/-- A value of type `map[K]V`: `none` is the nil map. -/
abbrev GoMap (K V : Type) := Option (List (K × V))

/-- Lookup `m[key]`; a nil map reads as empty. -/
def GoMap.get {K V : Type} [Inhabited V] (T : KeyType K) (m : GoMap K V) (key : K) : V × Bool :=
  match m with
  | none => (default, false)
  | some es => mapaccess2 T es key

/-- Assignment `m[key] = value`; panics on a nil map. -/
def GoMap.set {K V : Type} (T : KeyType K) (m : GoMap K V) (key : K) (value : V) :
    Except Fault (GoMap K V) :=
  match m with
  | none => .error .nilMapAssign
  | some es => .ok (some (mapassign T es key value))

/-- Statement `delete(m, key)`; a no-op on a nil map. -/
def GoMap.delete {K V : Type} (T : KeyType K) (m : GoMap K V) (key : K) : GoMap K V :=
  match m with
  | none => none
  | some es => some (mapdelete T es key)

/-- The keys held by a map, in the order of its entries. -/
def GoMap.keys {K V : Type} (m : GoMap K V) : List K :=
  match m with
  | none => []
  | some es => es.map Prod.fst

/-- The order in which the run time lets `for k := range m` visit the keys of the map of
shard `i` during one call of `Keys`: some rearrangement of the keys. -/
structure RangeOrder (K : Type) where
  order : Nat → List K → List K
  perm : ∀ i l, (order i l).Perm l

/-- The order of the entries themselves. -/
def RangeOrder.id (K : Type) : RangeOrder K := ⟨fun _ l => l, fun _ l => List.Perm.refl l⟩

/-- The entries backwards. -/
def RangeOrder.rev (K : Type) : RangeOrder K :=
  ⟨fun _ l => l.reverse, fun _ l => List.reverse_perm l⟩

/-! ## `0.main.go`: parallel slices -/

/-- The struct `ShardedMap[K, V]`. -/
structure ShardedMap (K V : Type) where
  shards : List (GoMap K V)
  locks : List RWMutex
  numShards : Nat

/-- The map the constructor `NewShardedMap` returns when it returns: zero is coerced to one,
the two slices are made with zero values (nil maps, unlocked mutexes), then the loop gives
every slot its own empty map. Whether the two slices can be made is `NewShardedMap.call`. -/
def NewShardedMap (K V : Type) (numShards : Nat) : ShardedMap K V :=
  let numShards := if numShards = 0 then 1 else numShards
  let sm : ShardedMap K V :=
    ⟨List.replicate numShards none, List.replicate numShards RWMutex.unlocked, numShards⟩
  ⟨(List.range sm.shards.length).foldl (fun shards i => shards.set i (some [])) sm.shards,
    sm.locks, sm.numShards⟩

/-- The constructor `NewShardedMap` as a call: after the coercion of zero,
`make([]map[K]V, numShards)` and `make([]sync.RWMutex, numShards)` panic for a length the run
time does not accept; otherwise the call returns the map `NewShardedMap` describes. -/
def NewShardedMap.call (K V : Type) (numShards : Nat) : Except Fault (ShardedMap K V) := do
  let n := if numShards = 0 then 1 else numShards
  makeslice sizeofPointer n
  makeslice sizeofRWMutex n
  pure (NewShardedMap K V numShards)

/-- The method `(*ShardedMap).getShardIndex`. -/
def ShardedMap.getShardIndex {K V : Type} (T : KeyType K) (sm : ShardedMap K V) (key : K) :
    Except Fault Nat :=
  let hash := hashKey T key
  modShards hash sm.numShards

/-- A call `sm.locks[idx].M()` of a lock method `M`. -/
def ShardedMap.lockCall {K V : Type} (sm : ShardedMap K V) (idx : Nat)
    (M : RWMutex → Except Fault RWMutex) : Except Fault (ShardedMap K V) := do
  let l ← index sm.locks idx
  let l ← M l
  pure ⟨sm.shards, sm.locks.set idx l, sm.numShards⟩

/-- The method `(*ShardedMap).Get`. -/
def ShardedMap.Get {K V : Type} [Inhabited V] (T : KeyType K) (sm : ShardedMap K V) (key : K) :
    Except Fault ((V × Bool) × ShardedMap K V) := do
  let idx ← sm.getShardIndex T key
  let sm ← sm.lockCall idx RWMutex.RLock
  let shard ← index sm.shards idx
  let (val, ok) := shard.get T key
  let sm ← sm.lockCall idx RWMutex.RUnlock
  pure ((val, ok), sm)

/-- The method `(*ShardedMap).Set`. -/
def ShardedMap.Set {K V : Type} (T : KeyType K) (sm : ShardedMap K V) (key : K) (value : V) :
    Except Fault (ShardedMap K V) := do
  let idx ← sm.getShardIndex T key
  let sm ← sm.lockCall idx RWMutex.Lock
  let shard ← index sm.shards idx
  let shard ← shard.set T key value
  let sm : ShardedMap K V := ⟨sm.shards.set idx shard, sm.locks, sm.numShards⟩
  sm.lockCall idx RWMutex.Unlock

/-- The method `(*ShardedMap).Delete`. -/
def ShardedMap.Delete {K V : Type} (T : KeyType K) (sm : ShardedMap K V) (key : K) :
    Except Fault (ShardedMap K V) := do
  let idx ← sm.getShardIndex T key
  let sm ← sm.lockCall idx RWMutex.Lock
  let shard ← index sm.shards idx
  let sm : ShardedMap K V := ⟨sm.shards.set idx (shard.delete T key), sm.locks, sm.numShards⟩
  sm.lockCall idx RWMutex.Unlock

/-- One turn of the loop of `(*ShardedMap).Keys`, for shard `i`. -/
def ShardedMap.keysStep {K V : Type} (ρ : RangeOrder K) (st : List K × ShardedMap K V) (i : Nat) :
    Except Fault (List K × ShardedMap K V) := do
  let (keys, sm) := st
  let sm ← sm.lockCall i RWMutex.RLock
  let shard ← index sm.shards i
  let keys := keys ++ ρ.order i shard.keys
  let sm ← sm.lockCall i RWMutex.RUnlock
  pure (keys, sm)

/-- The method `(*ShardedMap).Keys`: `for i := uint64(0); i < sm.numShards; i++`. -/
def ShardedMap.Keys {K V : Type} (ρ : RangeOrder K) (sm : ShardedMap K V) :
    Except Fault (List K × ShardedMap K V) :=
  (List.range sm.numShards).foldlM (ShardedMap.keysStep ρ) ([], sm)

/-! ## `1.main.go`: one bucket per shard -/

/-- The struct `Bucket[K, V]`: an embedded `sync.RWMutex` and the map `items`. -/
structure Bucket (K V : Type) where
  mu : RWMutex
  items : GoMap K V

/-- The struct `ShardedMap2[K, V]`; a shard is a `*Bucket`, `none` being the nil pointer. -/
structure ShardedMap2 (K V : Type) where
  shards : List (Option (Bucket K V))
  numShards : Nat

/-- The map the constructor `NewShardedMap2` returns when it returns: zero is coerced to
one, the slice is made of nil pointers, then the loop points every slot to a fresh bucket
with an empty map. Whether the slice can be made is `NewShardedMap2.call`. -/
def NewShardedMap2 (K V : Type) (numShards : Nat) : ShardedMap2 K V :=
  let numShards := if numShards = 0 then 1 else numShards
  let sm : ShardedMap2 K V := ⟨List.replicate numShards none, numShards⟩
  ⟨(List.range sm.shards.length).foldl
      (fun shards i => shards.set i (some ⟨RWMutex.unlocked, some []⟩)) sm.shards,
    sm.numShards⟩

/-- The constructor `NewShardedMap2` as a call: after the coercion of zero,
`make([]*Bucket[K, V], numShards)` panics for a length the run time does not accept;
otherwise the call returns the map `NewShardedMap2` describes. -/
def NewShardedMap2.call (K V : Type) (numShards : Nat) : Except Fault (ShardedMap2 K V) := do
  let n := if numShards = 0 then 1 else numShards
  makeslice sizeofPointer n
  pure (NewShardedMap2 K V numShards)

/-- The method `(*ShardedMap2).getShardIndex`. -/
def ShardedMap2.getShardIndex {K V : Type} (T : KeyType K) (sm : ShardedMap2 K V) (key : K) :
    Except Fault Nat :=
  let hash := hashKey T key
  modShards hash sm.numShards

/-- Following a `*Bucket`: a nil pointer cannot be used. -/
def deref {K V : Type} (p : Option (Bucket K V)) : Except Fault (Bucket K V) :=
  match p with
  | some b => .ok b
  | none => .error .nilDereference

/-- The method `(*ShardedMap2).Get`; the bucket the pointer leads to is written back into
its slot once the call is over. -/
def ShardedMap2.Get {K V : Type} [Inhabited V] (T : KeyType K) (sm : ShardedMap2 K V) (key : K) :
    Except Fault ((V × Bool) × ShardedMap2 K V) := do
  let idx ← sm.getShardIndex T key
  let shard ← index sm.shards idx
  let b ← deref shard
  let mu ← b.mu.RLock
  let b : Bucket K V := ⟨mu, b.items⟩
  let (val, ok) := b.items.get T key
  let mu ← b.mu.RUnlock
  let b : Bucket K V := ⟨mu, b.items⟩
  pure ((val, ok), ⟨sm.shards.set idx (some b), sm.numShards⟩)

/-- The method `(*ShardedMap2).Set`. -/
def ShardedMap2.Set {K V : Type} (T : KeyType K) (sm : ShardedMap2 K V) (key : K) (value : V) :
    Except Fault (ShardedMap2 K V) := do
  let idx ← sm.getShardIndex T key
  let shard ← index sm.shards idx
  let b ← deref shard
  let mu ← b.mu.Lock
  let b : Bucket K V := ⟨mu, b.items⟩
  let items ← b.items.set T key value
  let b : Bucket K V := ⟨b.mu, items⟩
  let mu ← b.mu.Unlock
  let b : Bucket K V := ⟨mu, b.items⟩
  pure ⟨sm.shards.set idx (some b), sm.numShards⟩

/-- The method `(*ShardedMap2).Delete`. -/
def ShardedMap2.Delete {K V : Type} (T : KeyType K) (sm : ShardedMap2 K V) (key : K) :
    Except Fault (ShardedMap2 K V) := do
  let idx ← sm.getShardIndex T key
  let shard ← index sm.shards idx
  let b ← deref shard
  let mu ← b.mu.Lock
  let b : Bucket K V := ⟨mu, b.items⟩
  let b : Bucket K V := ⟨b.mu, b.items.delete T key⟩
  let mu ← b.mu.Unlock
  let b : Bucket K V := ⟨mu, b.items⟩
  pure ⟨sm.shards.set idx (some b), sm.numShards⟩

/-- One turn of the loop of `(*ShardedMap2).Keys`, for shard `i`. -/
def ShardedMap2.keysStep {K V : Type} (ρ : RangeOrder K) (st : List K × ShardedMap2 K V)
    (i : Nat) : Except Fault (List K × ShardedMap2 K V) := do
  let (keys, sm) := st
  let shard ← index sm.shards i
  let b ← deref shard
  let mu ← b.mu.RLock
  let b : Bucket K V := ⟨mu, b.items⟩
  let keys := keys ++ ρ.order i b.items.keys
  let mu ← b.mu.RUnlock
  let b : Bucket K V := ⟨mu, b.items⟩
  pure (keys, ⟨sm.shards.set i (some b), sm.numShards⟩)

/-- The method `(*ShardedMap2).Keys`: `for i := uint64(0); i < sm.numShards; i++`. -/
def ShardedMap2.Keys {K V : Type} (ρ : RangeOrder K) (sm : ShardedMap2 K V) :
    Except Fault (List K × ShardedMap2 K V) :=
  (List.range sm.numShards).foldlM (ShardedMap2.keysStep ρ) ([], sm)

/-! ## Sequences of calls -/

/-- A call of one of the four public methods. -/
inductive Op (K V : Type) where
  | get (key : K)
  | set (key : K) (value : V)
  | delete (key : K)
  | keys (ρ : RangeOrder K)

/-- What a call hands back to its caller. -/
inductive Ret (K V : Type) where
  /-- The pair returned by `Get`. -/
  | got (val : V) (ok : Bool)
  /-- Return of `Set` and of `Delete`, which have no result. -/
  | done
  /-- The slice returned by `Keys`. -/
  | keyList (keys : List K)

/-- One call on a `ShardedMap`. -/
def ShardedMap.call {K V : Type} [Inhabited V] (T : KeyType K) (sm : ShardedMap K V) :
    Op K V → Except Fault (Ret K V × ShardedMap K V)
  | .get key => do
    let ((val, ok), sm) ← sm.Get T key
    pure (.got val ok, sm)
  | .set key value => do
    let sm ← sm.Set T key value
    pure (.done, sm)
  | .delete key => do
    let sm ← sm.Delete T key
    pure (.done, sm)
  | .keys ρ => do
    let (keys, sm) ← sm.Keys ρ
    pure (.keyList keys, sm)

/-- A sequence of calls on a `ShardedMap`, one after the other. -/
def ShardedMap.run {K V : Type} [Inhabited V] (T : KeyType K) (sm : ShardedMap K V) :
    List (Op K V) → Except Fault (List (Ret K V) × ShardedMap K V)
  | [] => pure ([], sm)
  | op :: ops => do
    let (r, sm) ← sm.call T op
    let (rs, sm) ← ShardedMap.run T sm ops
    pure (r :: rs, sm)

/-- One call on a `ShardedMap2`. -/
def ShardedMap2.call {K V : Type} [Inhabited V] (T : KeyType K) (sm : ShardedMap2 K V) :
    Op K V → Except Fault (Ret K V × ShardedMap2 K V)
  | .get key => do
    let ((val, ok), sm) ← sm.Get T key
    pure (.got val ok, sm)
  | .set key value => do
    let sm ← sm.Set T key value
    pure (.done, sm)
  | .delete key => do
    let sm ← sm.Delete T key
    pure (.done, sm)
  | .keys ρ => do
    let (keys, sm) ← sm.Keys ρ
    pure (.keyList keys, sm)

/-- A sequence of calls on a `ShardedMap2`, one after the other. -/
def ShardedMap2.run {K V : Type} [Inhabited V] (T : KeyType K) (sm : ShardedMap2 K V) :
    List (Op K V) → Except Fault (List (Ret K V) × ShardedMap2 K V)
  | [] => pure ([], sm)
  | op :: ops => do
    let (r, sm) ← sm.call T op
    let (rs, sm) ← ShardedMap2.run T sm ops
    pure (r :: rs, sm)

/-- The maps a program can hold: built by `NewShardedMap`, then used through any calls. -/
def ShardedMap.Reachable {K V : Type} [Inhabited V] (T : KeyType K) (sm : ShardedMap K V) : Prop :=
  ∃ numShards ops rs, (NewShardedMap K V numShards).run T ops = .ok (rs, sm)

/-- The maps a program can hold: built by `NewShardedMap2`, then used through any calls. -/
def ShardedMap2.Reachable {K V : Type} [Inhabited V] (T : KeyType K) (sm : ShardedMap2 K V) :
    Prop :=
  ∃ numShards ops rs, (NewShardedMap2 K V numShards).run T ops = .ok (rs, sm)

/-! ## Concrete key types -/

/-- The `float64` values whose printed form needs no digit generation. -/
inductive Float64 where
  | zero (negative : Bool)
  | inf (negative : Bool)
  | nan
  deriving DecidableEq, Repr

/-- Go `==` on `float64` (IEEE 754): the two zeros are equal, NaN equals nothing. -/
def Float64.eq : Float64 → Float64 → Bool
  | .zero _, .zero _ => true
  | .inf a, .inf b => a == b
  | _, _ => false

/-- The bytes of a string without characters beyond ASCII. -/
def ascii (s : String) : List Nat := s.toList.map Char.toNat

/-- Text printed for a `float64` by `fmt.Sprint` (verb `%v`). -/
def Float64.Sprint : Float64 → List Nat
  | .zero false => ascii "0"
  | .zero true => ascii "-0"
  | .inf false => ascii "+Inf"
  | .inf true => ascii "-Inf"
  | .nan => ascii "NaN"

/-- The fixed-width integer types other than `int` and `uint64`. -/
inductive IntKind where
  | int8 | int16 | int32 | int64 | uint | uint8 | uint16 | uint32 | uintptr
  deriving DecidableEq, Repr

/-- Key values of a few Go types: enough to meet every arm of the type switch. -/
inductive GoKey where
  | string (bytes : List Nat)
  | int (k : Int)
  | uint64 (k : Nat)
  | sized (kind : IntKind) (k : Int)
  | float64 (f : Float64)
  deriving DecidableEq, Repr

/-- Go `==` on these values: same type and equal values. -/
def GoKey.eq : GoKey → GoKey → Bool
  | .string a, .string b => a == b
  | .int a, .int b => a == b
  | .uint64 a, .uint64 b => a == b
  | .sized s a, .sized t b => s == t && a == b
  | .float64 a, .float64 b => a.eq b
  | _, _ => false

/-- The arm of the type switch a value takes. -/
def GoKey.dyn : GoKey → Dyn
  | .string b => .string b
  | .int k => .int k
  | .uint64 k => .uint64 k
  | _ => .other

/-- Text printed by `fmt.Sprint`: decimal digits for integers, the string itself. -/
def GoKey.Sprint : GoKey → List Nat
  | .string b => b
  | .int k => ascii (toString k)
  | .uint64 k => ascii (toString k)
  | .sized _ k => ascii (toString k)
  | .float64 f => f.Sprint

/-- The description of the key values of `GoKey`. -/
def goKeys : KeyType GoKey where
  eq := GoKey.eq
  dyn := GoKey.dyn
  Sprint := GoKey.Sprint
  eq_symm := by
    intro a b h
    cases a <;> cases b <;> simp_all [GoKey.eq]
    rename_i x y
    cases x <;> cases y <;> simp_all [Float64.eq]
  eq_trans := by
    intro a b c h h'
    cases a <;> cases b <;> cases c <;> simp_all [GoKey.eq]
    rename_i x y z
    cases x <;> cases y <;> cases z <;> simp_all [Float64.eq]
  eq_dyn := by
    intro a b h
    cases a <;> cases b <;> simp_all [GoKey.eq, GoKey.dyn]

/-- A string key with the bytes of an ASCII text. -/
def GoKey.str (s : String) : GoKey := .string (ascii s)

/-! ## The contents of a map, lock words left out

Between two calls every lock is free and every slot is filled, so a map is known by the
entries of its shards. The functions below act on these entries alone; the theorems first
show that the methods of both structs compute them. -/

/-- The shard a key belongs to among `n` shards. -/
def shardOf {K : Type} (T : KeyType K) (n : Nat) (key : K) : Nat :=
  hashKey T key % n

/-- The entries of shard `i`. -/
def shardAt {K V : Type} (c : List (List (K × V))) (i : Nat) : List (K × V) :=
  c.getD i []

/-- Lookup in the shard of the key. -/
def contentGet {K V : Type} [Inhabited V] (T : KeyType K) (c : List (List (K × V))) (key : K) :
    V × Bool :=
  mapaccess2 T (shardAt c (shardOf T c.length key)) key

/-- Assignment in the shard of the key. -/
def contentSet {K V : Type} (T : KeyType K) (c : List (List (K × V))) (key : K) (value : V) :
    List (List (K × V)) :=
  c.set (shardOf T c.length key) (mapassign T (shardAt c (shardOf T c.length key)) key value)

/-- Deletion in the shard of the key. -/
def contentDelete {K V : Type} (T : KeyType K) (c : List (List (K × V))) (key : K) :
    List (List (K × V)) :=
  c.set (shardOf T c.length key) (mapdelete T (shardAt c (shardOf T c.length key)) key)

/-- The keys of the shards listed by `indices`, each shard in the order of the run time. -/
def keysOver {K V : Type} (ρ : RangeOrder K) (c : List (List (K × V))) (indices : List Nat) :
    List K :=
  indices.flatMap (fun i => ρ.order i ((shardAt c i).map Prod.fst))

/-- The keys of all shards, shard 0 first. -/
def contentKeys {K V : Type} (ρ : RangeOrder K) (c : List (List (K × V))) : List K :=
  keysOver ρ c (List.range c.length)

/-- One call, on the entries. -/
def contentCall {K V : Type} [Inhabited V] (T : KeyType K) (c : List (List (K × V))) :
    Op K V → Ret K V × List (List (K × V))
  | .get key => (.got (contentGet T c key).1 (contentGet T c key).2, c)
  | .set key value => (.done, contentSet T c key value)
  | .delete key => (.done, contentDelete T c key)
  | .keys ρ => (.keyList (contentKeys ρ c), c)

/-- A sequence of calls, on the entries. -/
def contentRun {K V : Type} [Inhabited V] (T : KeyType K) (c : List (List (K × V))) :
    List (Op K V) → List (Ret K V) × List (List (K × V))
  | [] => ([], c)
  | op :: ops =>
    ((contentCall T c op).1 :: (contentRun T (contentCall T c op).2 ops).1,
      (contentRun T (contentCall T c op).2 ops).2)

/-- The `ShardedMap` with the given entries and all locks free. -/
def ShardedMap.ofContent {K V : Type} (c : List (List (K × V))) : ShardedMap K V :=
  ⟨c.map some, List.replicate c.length RWMutex.unlocked, c.length⟩

/-- The `ShardedMap2` with the given entries and all locks free. -/
def ShardedMap2.ofContent {K V : Type} (c : List (List (K × V))) : ShardedMap2 K V :=
  ⟨c.map (fun es => some ⟨RWMutex.unlocked, some es⟩), c.length⟩

/-- The keys that `Set` was called with. -/
def setKeys {K V : Type} : List (Op K V) → List K
  | [] => []
  | .set key _ :: ops => key :: setKeys ops
  | _ :: ops => setKeys ops

/-- Every stored key sits in the shard its hash selects, and no shard holds two equal keys. -/
def ContentInv {K V : Type} (T : KeyType K) (c : List (List (K × V))) : Prop :=
  c ≠ [] ∧ ∀ i, (∀ e ∈ shardAt c i, shardOf T c.length e.1 = i) ∧
    (shardAt c i).Pairwise (fun a b => T.eq a.1 b.1 = false)

/-- Shard `i` of a `ShardedMap` holds the key: the lookup `sm.shards[i][key]`, which
compares keys with `==` as every Go map does, finds an entry. -/
def ShardedMap.stores {K V : Type} [Inhabited V] (T : KeyType K) (sm : ShardedMap K V)
    (i : Nat) (key : K) : Prop :=
  ∃ m, sm.shards[i]? = some m ∧ (GoMap.get T m key).2 = true

/-- Shard `i` of a `ShardedMap2` holds the key: the lookup `sm.shards[i].items[key]` finds an
entry. -/
def ShardedMap2.stores {K V : Type} [Inhabited V] (T : KeyType K) (sm : ShardedMap2 K V)
    (i : Nat) (key : K) : Prop :=
  ∃ b, sm.shards[i]? = some (some b) ∧ (GoMap.get T b.items key).2 = true

/-- The keys in shard `i` of a `ShardedMap`, as `range` has them before reordering. -/
def ShardedMap.shardKeys {K V : Type} (sm : ShardedMap K V) (i : Nat) : List K :=
  GoMap.keys (sm.shards.getD i none)

/-- The keys in shard `i` of a `ShardedMap2`, as `range` has them before reordering. -/
def ShardedMap2.shardKeys {K V : Type} (sm : ShardedMap2 K V) (i : Nat) : List K :=
  match sm.shards.getD i none with
  | some b => GoMap.keys b.items
  | none => []

/-! ## The methods with their lock events

The same methods, statement by statement, each also handing back its events in the order
in which the call performs them. A lock event is read off the lock words, compared before
and after the lock call. An access to the mapping of a shard is an event of the shard whose
slot is indexed. -/

/-- FNV-1a on 64 bits from a given state, as the specification words it: for each byte in
order, XOR the byte into the state, then multiply by the prime 1099511628211 modulo
`2 ^ 64`. -/
def fnv1a64From (state : Nat) : List Nat → Nat
  | [] => state
  | byte :: rest => fnv1a64From ((state ^^^ byte) * 1099511628211 % 2 ^ 64) rest

/-- FNV-1a-64 of a byte sequence: no seed, the state starts from the offset basis
14695981039346656037. -/
def fnv1a64 (bytes : List Nat) : Nat :=
  fnv1a64From 14695981039346656037 bytes

/-- The number whose little-endian byte representation is `bytes`: lowest byte first. -/
def ofLittleEndian : List Nat → Nat
  | [] => 0
  | byte :: rest => byte + 256 * ofLittleEndian rest

end ShardedLocks

/-!
# go-kata: the concurrent aggregator

A shallow embedding of `01-context-cancellation-concurrency/01-concurrent-aggregator/main.go`.

Conventions of the embedding.

* Time is counted in nanoseconds from the moment `Aggregate` is called. A context is known by
  the moment its `Done()` channel closes and by the error `Err()` returns from then on.
* Time is ideal: the two goroutines start waiting at once, a timer fires exactly when due and
  computing takes no time. So a goroutine whose fetch ends before the other's runs to its end
  first. What the language leaves open is an argument of the call (`Run`): which case a
  `select` takes when its two channels are ready at the same instant, and in which order the
  steps of the two goroutines follow each other when both fetches end at the same instant.
* The variable `err` of `Aggregate` is shared by the two closures; each access to it is one
  step, and steps follow each other in one order.
* A call that panics is an `Except.error`; text printed by `fmt.Printf` is left out.
-/

namespace Aggregator

/-! ## Time, errors and contexts -/

/-- The constant `time.Millisecond`, a number of nanoseconds. -/
def Millisecond : Int := 1000000

/-- The constant `time.Second`, a number of nanoseconds. -/
def Second : Int := 1000000000

/-- The errors of package `context`, the only errors this program produces. -/
inductive CtxError where
  /-- The error `context.Canceled`. -/
  | Canceled
  /-- The error `context.DeadlineExceeded`. -/
  | DeadlineExceeded
  deriving DecidableEq, Repr

/-- The method `Error()` of these errors. -/
def CtxError.Error : CtxError → String
  | .Canceled => "context canceled"
  | .DeadlineExceeded => "context deadline exceeded"

/-- A value of type `error`: `none` is `nil`. -/
abbrev GoError := Option CtxError

/-- A `context.Context` seen from a call: the moment at which `Done()` closes together with
the error `Err()` returns from then on, or `none` when the context is never done. A context
already done when the call starts has moment 0. -/
structure Context where
  done : Option (Nat × CtxError)
  deriving DecidableEq, Repr

/-- The context `context.Background()`, never done. -/
def Context.Background : Context := ⟨none⟩

/-- The function `context.WithTimeout(parent, timeout)` called at moment 0: the child is done
as soon as the parent is, with the parent's error, or at the deadline with
`DeadlineExceeded`, whichever comes first; a deadline that is not in the future has passed at
moment 0. A parent already done at the call is seen first; when the parent is done later,
at the very moment of the deadline, `parentFirst` tells which of the two the child sees. -/
def Context.WithTimeout (parent : Context) (timeout : Int) (parentFirst : Bool) : Context :=
  let deadline := timeout.toNat
  match parent.done with
  | none => ⟨some (deadline, .DeadlineExceeded)⟩
  | some (p, e) =>
    if p < deadline then ⟨some (p, e)⟩
    else if deadline < p then ⟨some (deadline, .DeadlineExceeded)⟩
    else if p = 0 ∨ parentFirst = true then ⟨some (p, e)⟩
    else ⟨some (deadline, .DeadlineExceeded)⟩

/-- Cancelling a context at moment `now` (what errgroup does through the `cancel` of
`errgroup.WithContext`): no effect on a context already done, else `Err()` is `Canceled`. -/
def Context.cancelAt (ctx : Context) (now : Nat) : Context :=
  match ctx.done with
  | none => ⟨some (now, .Canceled)⟩
  | some (d, e) => if d ≤ now then ⟨some (d, e)⟩ else ⟨some (now, .Canceled)⟩

/-! ## The aggregator and its options -/

/-- A `*slog.Logger` that is not nil; the program only ever uses `slog.Default()`. -/
inductive Logger where
  | Default
  deriving DecidableEq, Repr

/-- A record handed to the logger: the level and the message. -/
structure LogRecord where
  level : String
  msg : String
  deriving DecidableEq, Repr

/-- The struct `UserAggregator`; `logger` is a pointer, `none` being nil. -/
structure UserAggregator where
  timeout : Int
  logger : Option Logger
  deriving DecidableEq, Repr

/-- The type `Option` of the program, `func(*UserAggregator)`. -/
abbrev AggOption := UserAggregator → UserAggregator

/-- The option `WithTimeout(t)`. -/
def WithTimeout (t : Int) : AggOption :=
  fun a => { a with timeout := t }

/-- The option `WithLogger()`. -/
def WithLogger : AggOption :=
  fun a => { a with logger := some Logger.Default }

/-- The constructor `NewUserAggregator(options...)`: the zero value, then each option in the
order given. -/
def NewUserAggregator (options : List AggOption) : UserAggregator :=
  options.foldl (fun userAggr opt => opt userAggr) ⟨0, none⟩

/-- A call `a.logger.Error(msg)` or `a.logger.Info(msg)`: a method of `*slog.Logger` called
on a nil pointer panics. -/
def logCall (logger : Option Logger) (level msg : String) :
    Except ShardedLocks.Fault (List LogRecord) :=
  match logger with
  | some _ => .ok [⟨level, msg⟩]
  | none => .error .nilDereference

/-! ## The two fetches -/

/-- What a fetch returns, and the moment at which it returns. -/
structure Fetched where
  time : Nat
  value : String
  err : GoError
  deriving DecidableEq, Repr

/-- The statement `select { case <-time.After(latency): return value, nil;
case <-ctx.Done(): return "", ctx.Err() }` entered at moment 0: the case that is ready
first is taken, and `timerFirst` tells which one when both are ready at the same moment. -/
def selectFetch (latency : Nat) (value : String) (ctx : Context) (timerFirst : Bool) :
    Fetched :=
  match ctx.done with
  | none => ⟨latency, value, none⟩
  | some (d, e) =>
    if latency < d then ⟨latency, value, none⟩
    else if d < latency then ⟨d, "", some e⟩
    else if timerFirst = true then ⟨latency, value, none⟩
    else ⟨d, "", some e⟩

/-- The function `fetchProfile`: two seconds, then `"Name: Alice"`. -/
def fetchProfile (ctx : Context) (_id : Int) (timerFirst : Bool) : Fetched :=
  selectFetch (2 * Second).toNat "Name: Alice" ctx timerFirst

/-- The function `fetchOrder`: half a second, then `"Order: 5"`. -/
def fetchOrder (ctx : Context) (_id : Int) (timerFirst : Bool) : Fetched :=
  selectFetch (500 * Millisecond).toNat "Order: 5" ctx timerFirst

/-! ## The two goroutines of the group -/

/-- The two closures passed to `g.Go`. -/
inductive Task where
  | profile
  | order
  deriving DecidableEq, Repr

/-- Where a goroutine of the group stands once its fetch has returned. -/
inductive Pc where
  /-- The fetch has returned; the assignment `profile, err = ...` (or `orders, err = ...`)
  comes next. -/
  | assign (fetched : Fetched)
  /-- The statement `return err`, which reads the shared variable, comes next. -/
  | ret
  /-- The closure has returned `r`; errgroup is about to look at it. -/
  | record (r : GoError)
  /-- The goroutine is over. -/
  | finished
  deriving DecidableEq, Repr

/-- The variables the two goroutines share, and the state of the errgroup. -/
structure Shared where
  /-- The variable `profile` of `Aggregate`. -/
  profile : String
  /-- The variable `orders` of `Aggregate`. -/
  orders : String
  /-- The variable `err` of `Aggregate`, assigned by both closures. -/
  err : GoError
  /-- The field `g.err` of the errgroup. -/
  groupErr : GoError
  /-- Whether `g.errOnce` has run. -/
  once : Bool
  /-- The context returned by `errgroup.WithContext`, which the fetches wait on. -/
  groupCtx : Context
  /-- What the closures returned, in the order in which they returned. -/
  returned : List (Task × GoError)
  deriving DecidableEq, Repr

/-- One step of a goroutine at moment `now`. The last step is that of errgroup: the first
error that is not nil is kept in `g.err` and the context of the group is cancelled. -/
def step (task : Task) (now : Nat) (pc : Pc) (sh : Shared) : Pc × Shared :=
  match pc with
  | .assign f =>
    match task with
    | .profile => (.ret, { sh with profile := f.value, err := f.err })
    | .order => (.ret, { sh with orders := f.value, err := f.err })
  | .ret => (.record sh.err, sh)
  | .record r =>
    let sh := { sh with returned := sh.returned ++ [(task, r)] }
    if r ≠ none ∧ sh.once = false then
      (.finished, { sh with groupErr := r, once := true, groupCtx := sh.groupCtx.cancelAt now })
    else (.finished, sh)
  | .finished => (.finished, sh)

/-- A goroutine run to its end with no step of the other in between. -/
def finish (task : Task) (now : Nat) (pc : Pc) (sh : Shared) : Shared :=
  let (pc, sh) := step task now pc sh
  let (pc, sh) := step task now pc sh
  let (_, sh) := step task now pc sh
  sh

/-- The two goroutines stepping at the same moment: while both have steps left, step number
`n` is taken by the profile goroutine when `schedule n` is `true`, by the order goroutine
otherwise. -/
def interleave (schedule : Nat → Bool) (now : Nat) :
    Nat → Nat → Pc → Pc → Shared → Pc × Pc × Shared
  | 0, _, p, o, sh => (p, o, sh)
  | fuel + 1, n, p, o, sh =>
    if p = .finished ∧ o = .finished then (p, o, sh)
    else if o = .finished ∨ (p ≠ .finished ∧ schedule n = true) then
      interleave schedule now fuel (n + 1) (step .profile now p sh).1 o (step .profile now p sh).2
    else
      interleave schedule now fuel (n + 1) p (step .order now o sh).1 (step .order now o sh).2

/-- What one call leaves open: see `Context.WithTimeout`, `selectFetch`, `interleave`. -/
structure Run where
  parentFirst : Bool
  profileTimerFirst : Bool
  orderTimerFirst : Bool
  schedule : Nat → Bool

/-- The group once `g.Wait()` can return: what each fetch returned, the shared variables,
and the moment at which the second goroutine ended. -/
structure GroupRun where
  profileFetch : Fetched
  orderFetch : Fetched
  shared : Shared
  endTime : Nat
  allFinished : Bool

/-- The statements `g, ctx := errgroup.WithContext(ctx)`, the two `g.Go(...)` and the wait
for both goroutines. The goroutine whose fetch returns first runs to its end; the other
fetch, still waiting, then sees the context of the group as the first one left it. -/
def runGroup (ctx : Context) (id : Int) (run : Run) : GroupRun :=
  let sh : Shared := ⟨"", "", none, none, false, ctx, []⟩
  let fp := fetchProfile ctx id run.profileTimerFirst
  let fo := fetchOrder ctx id run.orderTimerFirst
  if fp.time < fo.time then
    let sh := finish .profile fp.time (.assign fp) sh
    let fo := fetchOrder sh.groupCtx id run.orderTimerFirst
    ⟨fp, fo, finish .order fo.time (.assign fo) sh, fo.time, true⟩
  else if fo.time < fp.time then
    let sh := finish .order fo.time (.assign fo) sh
    let fp := fetchProfile sh.groupCtx id run.profileTimerFirst
    ⟨fp, fo, finish .profile fp.time (.assign fp) sh, fp.time, true⟩
  else
    let r := interleave run.schedule fp.time 6 0 (.assign fp) (.assign fo) sh
    ⟨fp, fo, r.2.2, fp.time, decide (r.1 = .finished ∧ r.2.1 = .finished)⟩

/-- What `Aggregate` returns: the two results, the moment of the return, and the records
handed to the logger. -/
structure Result where
  value : String
  err : GoError
  elapsed : Nat
  logged : List LogRecord
  deriving DecidableEq, Repr

/-- The method `(*UserAggregator).Aggregate`. -/
def UserAggregator.Aggregate (a : UserAggregator) (ctx : Context) (id : Int) (run : Run) :
    Except ShardedLocks.Fault Result := do
  let ctx := ctx.WithTimeout a.timeout run.parentFirst
  let g := runGroup ctx id run
  if g.allFinished = false then throw .blocked
  match g.shared.groupErr with
  | some err =>
    let logged ← logCall a.logger "ERROR" err.Error
    pure ⟨"", some err, g.endTime, logged⟩
  | none =>
    let logged ← logCall a.logger "INFO" "fetched seccess"
    pure ⟨g.shared.profile ++ " | " ++ g.shared.orders, none, g.endTime, logged⟩

/-- How many steps a goroutine has left. -/
def Pc.stepsLeft : Pc → Nat
  | .assign _ => 3
  | .ret => 2
  | .record _ => 1
  | .finished => 0

/-- The schedule in which the profile goroutine always steps first. -/
def profileFirst : Nat → Bool := fun _ => true

/-- A schedule given by its first steps; the order goroutine steps after them. -/
def scheduleOf (steps : List Bool) : Nat → Bool := fun n => steps.getD n false

/-! ## The start of the goroutines

In `Aggregate` the deadline is taken by `context.WithTimeout` (line 42) before the goroutines
are started, and each timer is created only when its goroutine reaches the `select` (lines
62 and 73). The definitions above let both happen at moment 0. Those below take the moment
at which each goroutine reaches its `select` as one more thing a call leaves open; with both
moments 0 they are the definitions above. -/

/-- The moments, counted like all others from the call of `Aggregate`, at which the two
goroutines reach their `select`. -/
structure Starts where
  profile : Nat
  order : Nat

/-- The `select` of a fetch entered at moment `start`: the timer is due `latency` later; a
context done before that is seen as soon as the `select` is entered. -/
def selectFetchAt (start latency : Nat) (value : String) (ctx : Context) (timerFirst : Bool) :
    Fetched :=
  match ctx.done with
  | none => ⟨start + latency, value, none⟩
  | some (d, e) =>
    if start + latency < d then ⟨start + latency, value, none⟩
    else if d < start + latency then ⟨max d start, "", some e⟩
    else if timerFirst = true then ⟨start + latency, value, none⟩
    else ⟨d, "", some e⟩

/-- The function `fetchProfile` called by a goroutine that reaches the `select` at `start`. -/
def fetchProfileAt (start : Nat) (ctx : Context) (_id : Int) (timerFirst : Bool) : Fetched :=
  selectFetchAt start (2 * Second).toNat "Name: Alice" ctx timerFirst

/-- The function `fetchOrder` called by a goroutine that reaches the `select` at `start`. -/
def fetchOrderAt (start : Nat) (ctx : Context) (_id : Int) (timerFirst : Bool) : Fetched :=
  selectFetchAt start (500 * Millisecond).toNat "Order: 5" ctx timerFirst

/-- The group as in `runGroup`, the goroutines reaching their `select` at `starts`. -/
def runGroupAt (starts : Starts) (ctx : Context) (id : Int) (run : Run) : GroupRun :=
  let sh : Shared := ⟨"", "", none, none, false, ctx, []⟩
  let fp := fetchProfileAt starts.profile ctx id run.profileTimerFirst
  let fo := fetchOrderAt starts.order ctx id run.orderTimerFirst
  if fp.time < fo.time then
    let sh := finish .profile fp.time (.assign fp) sh
    let fo := fetchOrderAt starts.order sh.groupCtx id run.orderTimerFirst
    ⟨fp, fo, finish .order fo.time (.assign fo) sh, fo.time, true⟩
  else if fo.time < fp.time then
    let sh := finish .order fo.time (.assign fo) sh
    let fp := fetchProfileAt starts.profile sh.groupCtx id run.profileTimerFirst
    ⟨fp, fo, finish .profile fp.time (.assign fp) sh, fp.time, true⟩
  else
    let r := interleave run.schedule fp.time 6 0 (.assign fp) (.assign fo) sh
    ⟨fp, fo, r.2.2, fp.time, decide (r.1 = .finished ∧ r.2.1 = .finished)⟩

/-- The method `(*UserAggregator).Aggregate`, the goroutines reaching their `select` at
`starts`. -/
def UserAggregator.AggregateAt (a : UserAggregator) (starts : Starts) (ctx : Context)
    (id : Int) (run : Run) : Except ShardedLocks.Fault Result := do
  let ctx := ctx.WithTimeout a.timeout run.parentFirst
  let g := runGroupAt starts ctx id run
  if g.allFinished = false then throw .blocked
  match g.shared.groupErr with
  | some err =>
    let logged ← logCall a.logger "ERROR" err.Error
    pure ⟨"", some err, g.endTime, logged⟩
  | none =>
    let logged ← logCall a.logger "INFO" "fetched seccess"
    pure ⟨g.shared.profile ++ " | " ++ g.shared.orders, none, g.endTime, logged⟩

end Aggregator

namespace ShardedLocks

/-! # Theorems -/

/-! ## The methods compute the functions on entries -/

theorem index_ok {α : Type} (s : List α) (i : Nat) (a : α) (h : s[i]? = some a) :
    index s i = .ok a := by
  simp [index, h]

theorem shardAt_some {K V : Type} (cs : List (List (K × V))) (i : Nat) (h : i < cs.length) :
    cs[i]? = some (shardAt cs i) := by
  simp [shardAt, List.getD_eq_getElem?_getD, List.getElem?_eq_getElem h]

theorem shardOf_lt {K : Type} (T : KeyType K) (n : Nat) (key : K) (h : n ≠ 0) :
    shardOf T n key < n :=
  Nat.mod_lt _ (Nat.pos_of_ne_zero h)

theorem set_same {α : Type} (s : List α) (i : Nat) (a : α) (h : s[i]? = some a) :
    s.set i a = s := by
  apply List.ext_getElem?
  intro j
  by_cases hij : i = j
  · subst hij
    have hlt : i < s.length := (List.getElem?_eq_some.1 h).1
    simp [List.getElem?_set_self hlt, h]
  · simp [List.getElem?_set, hij]

theorem index_set {α : Type} (s : List α) (i : Nat) (a b : α) (h : s[i]? = some a) :
    index (s.set i b) i = .ok b := by
  have hlt : i < s.length := (List.getElem?_eq_some.1 h).1
  exact index_ok _ _ _ (List.getElem?_set_self hlt)

theorem SM1_Get_eq {K V : Type} [Inhabited V] (T : KeyType K) (sm : ShardedMap K V)
    (key : K) (es : List (K × V)) (hn : sm.numShards ≠ 0)
    (hl : sm.locks[hashKey T key % sm.numShards]? = some ⟨0, false⟩)
    (hs : sm.shards[hashKey T key % sm.numShards]? = some (some es)) :
    sm.Get T key = .ok (mapaccess2 T es key, sm) := by
  simp [ShardedMap.Get, ShardedMap.getShardIndex, modShards, hn,
    bind, Except.bind, ShardedMap.lockCall, pure, Except.pure,
    index_ok _ _ _ hl, index_ok _ _ _ hs, index_set _ _ _ _ hl,
    RWMutex.RLock, RWMutex.RUnlock, GoMap.get, List.set_set, set_same _ _ _ hl]

theorem SM1_Set_eq {K V : Type} (T : KeyType K) (sm : ShardedMap K V)
    (key : K) (value : V) (es : List (K × V)) (hn : sm.numShards ≠ 0)
    (hl : sm.locks[hashKey T key % sm.numShards]? = some ⟨0, false⟩)
    (hs : sm.shards[hashKey T key % sm.numShards]? = some (some es)) :
    sm.Set T key value = .ok ⟨sm.shards.set (hashKey T key % sm.numShards)
      (some (mapassign T es key value)), sm.locks, sm.numShards⟩ := by
  simp [ShardedMap.Set, ShardedMap.getShardIndex, modShards, hn,
    bind, Except.bind, ShardedMap.lockCall, pure, Except.pure,
    index_ok _ _ _ hl, index_ok _ _ _ hs, index_set _ _ _ _ hl,
    RWMutex.Lock, RWMutex.Unlock, GoMap.set, List.set_set, set_same _ _ _ hl]

theorem SM1_Delete_eq {K V : Type} (T : KeyType K) (sm : ShardedMap K V)
    (key : K) (es : List (K × V)) (hn : sm.numShards ≠ 0)
    (hl : sm.locks[hashKey T key % sm.numShards]? = some ⟨0, false⟩)
    (hs : sm.shards[hashKey T key % sm.numShards]? = some (some es)) :
    sm.Delete T key = .ok ⟨sm.shards.set (hashKey T key % sm.numShards)
      (some (mapdelete T es key)), sm.locks, sm.numShards⟩ := by
  simp [ShardedMap.Delete, ShardedMap.getShardIndex, modShards, hn,
    bind, Except.bind, ShardedMap.lockCall, pure, Except.pure,
    index_ok _ _ _ hl, index_ok _ _ _ hs, index_set _ _ _ _ hl,
    RWMutex.Lock, RWMutex.Unlock, GoMap.delete, List.set_set, set_same _ _ _ hl]

theorem SM1_keysStep_eq {K V : Type} (ρ : RangeOrder K) (sm : ShardedMap K V)
    (keys : List K) (i : Nat) (es : List (K × V))
    (hl : sm.locks[i]? = some ⟨0, false⟩) (hs : sm.shards[i]? = some (some es)) :
    ShardedMap.keysStep ρ (keys, sm) i = .ok (keys ++ ρ.order i (es.map Prod.fst), sm) := by
  simp [ShardedMap.keysStep, bind, Except.bind, ShardedMap.lockCall, pure, Except.pure,
    index_ok _ _ _ hl, index_ok _ _ _ hs, index_set _ _ _ _ hl,
    RWMutex.RLock, RWMutex.RUnlock, GoMap.keys, List.set_set, set_same _ _ _ hl]

theorem SM2_Get_eq {K V : Type} [Inhabited V] (T : KeyType K) (sm : ShardedMap2 K V)
    (key : K) (es : List (K × V)) (hn : sm.numShards ≠ 0)
    (hs : sm.shards[hashKey T key % sm.numShards]? = some (some ⟨⟨0, false⟩, some es⟩)) :
    sm.Get T key = .ok (mapaccess2 T es key, sm) := by
  simp [ShardedMap2.Get, ShardedMap2.getShardIndex, modShards, hn,
    bind, Except.bind, deref, pure, Except.pure, index_ok _ _ _ hs,
    RWMutex.RLock, RWMutex.RUnlock, GoMap.get, set_same _ _ _ hs]

theorem SM2_Set_eq {K V : Type} (T : KeyType K) (sm : ShardedMap2 K V)
    (key : K) (value : V) (es : List (K × V)) (hn : sm.numShards ≠ 0)
    (hs : sm.shards[hashKey T key % sm.numShards]? = some (some ⟨⟨0, false⟩, some es⟩)) :
    sm.Set T key value = .ok ⟨sm.shards.set (hashKey T key % sm.numShards)
      (some ⟨⟨0, false⟩, some (mapassign T es key value)⟩), sm.numShards⟩ := by
  simp [ShardedMap2.Set, ShardedMap2.getShardIndex, modShards, hn,
    bind, Except.bind, deref, pure, Except.pure, index_ok _ _ _ hs,
    RWMutex.Lock, RWMutex.Unlock, GoMap.set]

theorem SM2_Delete_eq {K V : Type} (T : KeyType K) (sm : ShardedMap2 K V)
    (key : K) (es : List (K × V)) (hn : sm.numShards ≠ 0)
    (hs : sm.shards[hashKey T key % sm.numShards]? = some (some ⟨⟨0, false⟩, some es⟩)) :
    sm.Delete T key = .ok ⟨sm.shards.set (hashKey T key % sm.numShards)
      (some ⟨⟨0, false⟩, some (mapdelete T es key)⟩), sm.numShards⟩ := by
  simp [ShardedMap2.Delete, ShardedMap2.getShardIndex, modShards, hn,
    bind, Except.bind, deref, pure, Except.pure, index_ok _ _ _ hs,
    RWMutex.Lock, RWMutex.Unlock, GoMap.delete]

theorem SM2_keysStep_eq {K V : Type} (ρ : RangeOrder K) (sm : ShardedMap2 K V)
    (keys : List K) (i : Nat) (es : List (K × V))
    (hs : sm.shards[i]? = some (some ⟨⟨0, false⟩, some es⟩)) :
    ShardedMap2.keysStep ρ (keys, sm) i = .ok (keys ++ ρ.order i (es.map Prod.fst), sm) := by
  simp [ShardedMap2.keysStep, bind, Except.bind, deref, pure, Except.pure, index_ok _ _ _ hs,
    RWMutex.RLock, RWMutex.RUnlock, GoMap.keys, set_same _ _ _ hs]

theorem SM1_ofContent_locks {K V : Type} (c : List (List (K × V))) (i : Nat)
    (h : i < c.length) : (ShardedMap.ofContent c).locks[i]? = some ⟨0, false⟩ := by
  simp [ShardedMap.ofContent, List.getElem?_replicate, h, RWMutex.unlocked]

theorem SM1_ofContent_shards {K V : Type} (c : List (List (K × V))) (i : Nat)
    (h : i < c.length) : (ShardedMap.ofContent c).shards[i]? = some (some (shardAt c i)) := by
  simp [ShardedMap.ofContent, shardAt_some c i h]

theorem SM2_ofContent_shards {K V : Type} (c : List (List (K × V))) (i : Nat)
    (h : i < c.length) :
    (ShardedMap2.ofContent c).shards[i]? = some (some ⟨⟨0, false⟩, some (shardAt c i)⟩) := by
  simp [ShardedMap2.ofContent, shardAt_some c i h, RWMutex.unlocked]

theorem length_ne_zero {α : Type} (c : List α) (hc : c ≠ []) : c.length ≠ 0 := by
  simpa using hc

theorem SM1_Get_ofContent {K V : Type} [Inhabited V] (T : KeyType K)
    (c : List (List (K × V))) (hc : c ≠ []) (key : K) :
    (ShardedMap.ofContent c).Get T key = .ok (contentGet T c key, ShardedMap.ofContent c) := by
  have hn := length_ne_zero c hc
  have hi := shardOf_lt T c.length key hn
  exact SM1_Get_eq T _ key _ hn (SM1_ofContent_locks c _ hi)
    (SM1_ofContent_shards c _ hi)

theorem SM1_Set_ofContent {K V : Type} (T : KeyType K)
    (c : List (List (K × V))) (hc : c ≠ []) (key : K) (value : V) :
    (ShardedMap.ofContent c).Set T key value
      = .ok (ShardedMap.ofContent (contentSet T c key value)) := by
  have hn := length_ne_zero c hc
  have hi := shardOf_lt T c.length key hn
  rw [SM1_Set_eq T _ key value _ hn (SM1_ofContent_locks c _ hi)
    (SM1_ofContent_shards c _ hi)]
  simp [ShardedMap.ofContent, contentSet, List.map_set, shardOf]

theorem SM1_Delete_ofContent {K V : Type} (T : KeyType K)
    (c : List (List (K × V))) (hc : c ≠ []) (key : K) :
    (ShardedMap.ofContent c).Delete T key
      = .ok (ShardedMap.ofContent (contentDelete T c key)) := by
  have hn := length_ne_zero c hc
  have hi := shardOf_lt T c.length key hn
  rw [SM1_Delete_eq T _ key _ hn (SM1_ofContent_locks c _ hi)
    (SM1_ofContent_shards c _ hi)]
  simp [ShardedMap.ofContent, contentDelete, List.map_set, shardOf]

theorem SM1_foldlM_keysStep {K V : Type} (ρ : RangeOrder K) (c : List (List (K × V)))
    (indices : List Nat) (h : ∀ i ∈ indices, i < c.length) (keys : List K) :
    indices.foldlM (ShardedMap.keysStep ρ) (keys, ShardedMap.ofContent c)
      = .ok (keys ++ keysOver ρ c indices, ShardedMap.ofContent c) := by
  induction indices generalizing keys with
  | nil => simp [keysOver, pure, Except.pure]
  | cons i rest ih =>
    have hi : i < c.length := h i (List.mem_cons_self _ _)
    rw [List.foldlM_cons, SM1_keysStep_eq ρ _ keys i _
      (SM1_ofContent_locks c i hi) (SM1_ofContent_shards c i hi)]
    simp only [bind, Except.bind]
    rw [ih (fun j hj => h j (List.mem_cons_of_mem _ hj))]
    simp [keysOver, List.flatMap_cons]

theorem SM1_Keys_ofContent {K V : Type} (ρ : RangeOrder K) (c : List (List (K × V))) :
    (ShardedMap.ofContent c).Keys ρ = .ok (contentKeys ρ c, ShardedMap.ofContent c) := by
  have := SM1_foldlM_keysStep ρ c (List.range c.length) (by simp) []
  simpa [ShardedMap.Keys, contentKeys, ShardedMap.ofContent] using this

theorem SM2_Get_ofContent {K V : Type} [Inhabited V] (T : KeyType K)
    (c : List (List (K × V))) (hc : c ≠ []) (key : K) :
    (ShardedMap2.ofContent c).Get T key = .ok (contentGet T c key, ShardedMap2.ofContent c) := by
  have hn := length_ne_zero c hc
  have hi := shardOf_lt T c.length key hn
  exact SM2_Get_eq T _ key _ hn (SM2_ofContent_shards c _ hi)

theorem SM2_Set_ofContent {K V : Type} (T : KeyType K)
    (c : List (List (K × V))) (hc : c ≠ []) (key : K) (value : V) :
    (ShardedMap2.ofContent c).Set T key value
      = .ok (ShardedMap2.ofContent (contentSet T c key value)) := by
  have hn := length_ne_zero c hc
  have hi := shardOf_lt T c.length key hn
  rw [SM2_Set_eq T _ key value _ hn (SM2_ofContent_shards c _ hi)]
  simp [ShardedMap2.ofContent, contentSet, List.map_set, shardOf, RWMutex.unlocked]

theorem SM2_Delete_ofContent {K V : Type} (T : KeyType K)
    (c : List (List (K × V))) (hc : c ≠ []) (key : K) :
    (ShardedMap2.ofContent c).Delete T key
      = .ok (ShardedMap2.ofContent (contentDelete T c key)) := by
  have hn := length_ne_zero c hc
  have hi := shardOf_lt T c.length key hn
  rw [SM2_Delete_eq T _ key _ hn (SM2_ofContent_shards c _ hi)]
  simp [ShardedMap2.ofContent, contentDelete, List.map_set, shardOf, RWMutex.unlocked]

theorem SM2_foldlM_keysStep {K V : Type} (ρ : RangeOrder K) (c : List (List (K × V)))
    (indices : List Nat) (h : ∀ i ∈ indices, i < c.length) (keys : List K) :
    indices.foldlM (ShardedMap2.keysStep ρ) (keys, ShardedMap2.ofContent c)
      = .ok (keys ++ keysOver ρ c indices, ShardedMap2.ofContent c) := by
  induction indices generalizing keys with
  | nil => simp [keysOver, pure, Except.pure]
  | cons i rest ih =>
    have hi : i < c.length := h i (List.mem_cons_self _ _)
    rw [List.foldlM_cons, SM2_keysStep_eq ρ _ keys i _
      (SM2_ofContent_shards c i hi)]
    simp only [bind, Except.bind]
    rw [ih (fun j hj => h j (List.mem_cons_of_mem _ hj))]
    simp [keysOver, List.flatMap_cons]

theorem SM2_Keys_ofContent {K V : Type} (ρ : RangeOrder K) (c : List (List (K × V))) :
    (ShardedMap2.ofContent c).Keys ρ = .ok (contentKeys ρ c, ShardedMap2.ofContent c) := by
  have := SM2_foldlM_keysStep ρ c (List.range c.length) (by simp) []
  simpa [ShardedMap2.Keys, contentKeys, ShardedMap2.ofContent] using this

theorem contentCall_ne_nil {K V : Type} [Inhabited V] (T : KeyType K) (c : List (List (K × V)))
    (hc : c ≠ []) (op : Op K V) : (contentCall T c op).2 ≠ [] := by
  cases op <;> simp [contentCall, contentSet, contentDelete, hc]

theorem contentCall_length {K V : Type} [Inhabited V] (T : KeyType K) (c : List (List (K × V)))
    (op : Op K V) : (contentCall T c op).2.length = c.length := by
  cases op <;> simp [contentCall, contentSet, contentDelete]

theorem contentRun_length {K V : Type} [Inhabited V] (T : KeyType K) (c : List (List (K × V)))
    (ops : List (Op K V)) : (contentRun T c ops).2.length = c.length := by
  induction ops generalizing c with
  | nil => rfl
  | cons op ops ih => simp [contentRun, ih, contentCall_length]

theorem contentRun_ne_nil {K V : Type} [Inhabited V] (T : KeyType K) (c : List (List (K × V)))
    (hc : c ≠ []) (ops : List (Op K V)) : (contentRun T c ops).2 ≠ [] := by
  have h := contentRun_length T c ops
  intro h0
  rw [h0] at h
  exact length_ne_zero c hc h.symm

theorem SM1_call_ofContent {K V : Type} [Inhabited V] (T : KeyType K)
    (c : List (List (K × V))) (hc : c ≠ []) (op : Op K V) :
    (ShardedMap.ofContent c).call T op
      = .ok ((contentCall T c op).1, ShardedMap.ofContent (contentCall T c op).2) := by
  cases op <;>
    simp [ShardedMap.call, contentCall, SM1_Get_ofContent T c hc,
      SM1_Set_ofContent T c hc, SM1_Delete_ofContent T c hc,
      SM1_Keys_ofContent, bind, Except.bind, pure, Except.pure]

theorem SM1_run_ofContent {K V : Type} [Inhabited V] (T : KeyType K)
    (c : List (List (K × V))) (hc : c ≠ []) (ops : List (Op K V)) :
    (ShardedMap.ofContent c).run T ops
      = .ok ((contentRun T c ops).1, ShardedMap.ofContent (contentRun T c ops).2) := by
  induction ops generalizing c with
  | nil => rfl
  | cons op ops ih =>
    simp [ShardedMap.run, SM1_call_ofContent T c hc, bind, Except.bind,
      ih _ (contentCall_ne_nil T c hc op), contentRun, pure, Except.pure]

theorem SM2_call_ofContent {K V : Type} [Inhabited V] (T : KeyType K)
    (c : List (List (K × V))) (hc : c ≠ []) (op : Op K V) :
    (ShardedMap2.ofContent c).call T op
      = .ok ((contentCall T c op).1, ShardedMap2.ofContent (contentCall T c op).2) := by
  cases op <;>
    simp [ShardedMap2.call, contentCall, SM2_Get_ofContent T c hc,
      SM2_Set_ofContent T c hc, SM2_Delete_ofContent T c hc,
      SM2_Keys_ofContent, bind, Except.bind, pure, Except.pure]

theorem SM2_run_ofContent {K V : Type} [Inhabited V] (T : KeyType K)
    (c : List (List (K × V))) (hc : c ≠ []) (ops : List (Op K V)) :
    (ShardedMap2.ofContent c).run T ops
      = .ok ((contentRun T c ops).1, ShardedMap2.ofContent (contentRun T c ops).2) := by
  induction ops generalizing c with
  | nil => rfl
  | cons op ops ih =>
    simp [ShardedMap2.run, SM2_call_ofContent T c hc, bind, Except.bind,
      ih _ (contentCall_ne_nil T c hc op), contentRun, pure, Except.pure]

/-! ## The constructors -/

theorem fill_length {α : Type} (l : List α) (a : α) (m : Nat) :
    ((List.range m).foldl (fun s i => s.set i a) l).length = l.length := by
  induction m with
  | zero => simp
  | succ m ih => simp [List.range_succ, List.foldl_append, ih]

theorem fill_getElem {α : Type} (l : List α) (a : α) (m j : Nat) :
    ((List.range m).foldl (fun s i => s.set i a) l)[j]?
      = if j < m then l[j]?.map (fun _ => a) else l[j]? := by
  induction m with
  | zero => simp
  | succ m ih =>
    simp only [List.range_succ, List.foldl_append, List.foldl_cons, List.foldl_nil,
      List.getElem?_set, fill_length, ih]
    by_cases hmj : m = j
    · subst hmj
      by_cases hlt : m < l.length
      · simp [hlt, List.getElem?_eq_getElem hlt]
      · simp [hlt, List.getElem?_eq_none (Nat.le_of_not_lt hlt)]
    · have h1 : (j < m + 1) = (j < m) := by
        apply propext
        omega
      simp [hmj, h1]

theorem fill_replicate {α : Type} (n : Nat) (a b : α) :
    (List.range n).foldl (fun s i => s.set i b) (List.replicate n a)
      = List.replicate n b := by
  apply List.ext_getElem?
  intro j
  rw [fill_getElem]
  by_cases h : j < n <;> simp [List.getElem?_replicate, h]

theorem NewShardedMap_eq (K V : Type) (numShards : Nat) :
    NewShardedMap K V numShards
      = ShardedMap.ofContent (List.replicate (if numShards = 0 then 1 else numShards) []) := by
  simp only [NewShardedMap, fill_replicate, ShardedMap.ofContent, List.map_replicate,
    List.length_replicate]

theorem NewShardedMap2_eq (K V : Type) (numShards : Nat) :
    NewShardedMap2 K V numShards
      = ShardedMap2.ofContent (List.replicate (if numShards = 0 then 1 else numShards) []) := by
  simp only [NewShardedMap2, fill_replicate, ShardedMap2.ofContent, List.map_replicate,
    List.length_replicate]

/-! ## Go maps as entry lists -/

theorem hashKey_congr {K : Type} (T : KeyType K) (a b : K) (h : T.eq a b = true)
    (hs : T.dyn a = .other → T.Sprint a = T.Sprint b) : hashKey T a = hashKey T b := by
  have hd := T.eq_dyn a b h
  unfold hashKey
  rw [← hd]
  cases hda : T.dyn a with
  | string k => rfl
  | int k => rfl
  | uint64 k => rfl
  | other => simp only [hs hda]

theorem mapaccess2_found {K V : Type} [Inhabited V] (T : KeyType K) (m : List (K × V)) (key : K) :
    (mapaccess2 T m key).2 = true ↔ ∃ e ∈ m, T.eq e.1 key = true := by
  induction m with
  | nil => simp [mapaccess2]
  | cons e m ih =>
    obtain ⟨k, v⟩ := e
    by_cases h : T.eq k key = true
    · simp [mapaccess2, h]
    · simp [mapaccess2, h, ih]

theorem mapaccess2_absent {K V : Type} [Inhabited V] (T : KeyType K) (m : List (K × V)) (key : K)
    (h : ∀ e ∈ m, T.eq e.1 key = false) : mapaccess2 T m key = (default, false) := by
  induction m with
  | nil => rfl
  | cons e m ih =>
    obtain ⟨k, v⟩ := e
    have hk : T.eq k key = false := h (k, v) (List.mem_cons_self _ _)
    simp [mapaccess2, hk, ih (fun e he => h e (List.mem_cons_of_mem _ he))]

theorem mapaccess2_mapassign {K V : Type} [Inhabited V] (T : KeyType K) (m : List (K × V))
    (key : K) (value : V) (h : T.eq key key = true) :
    mapaccess2 T (mapassign T m key value) key = (value, true) := by
  induction m with
  | nil => simp [mapassign, mapaccess2, h]
  | cons e m ih =>
    obtain ⟨k, v⟩ := e
    by_cases hk : T.eq k key = true
    · simp [mapassign, mapaccess2, hk, h]
    · simp [mapassign, mapaccess2, hk, ih]

theorem mapaccess2_mapdelete {K V : Type} [Inhabited V] (T : KeyType K) (m : List (K × V))
    (key : K) : mapaccess2 T (mapdelete T m key) key = (default, false) := by
  apply mapaccess2_absent
  intro e he
  have := (List.mem_filter.1 he).2
  simpa using this

theorem mapdelete_absent {K V : Type} [Inhabited V] (T : KeyType K) (m : List (K × V))
    (key : K) (h : (mapaccess2 T m key).2 = false) : mapdelete T m key = m := by
  apply List.filter_eq_self.2
  intro e he
  by_contra hne
  have : (mapaccess2 T m key).2 = true :=
    (mapaccess2_found T m key).2 ⟨e, he, by simpa using hne⟩
  rw [h] at this
  exact Bool.false_ne_true this

theorem mem_mapassign {K V : Type} (T : KeyType K) (m : List (K × V)) (key : K) (value : V)
    (e : K × V) (h : e ∈ mapassign T m key value) : e ∈ m ∨ e = (key, value) := by
  induction m with
  | nil => simpa [mapassign] using h
  | cons e' m ih =>
    obtain ⟨k, v⟩ := e'
    cases hk : T.eq k key
    · rw [mapassign, hk, if_neg Bool.false_ne_true, List.mem_cons] at h
      rcases h with h | h
      · exact Or.inl (h ▸ List.mem_cons_self _ _)
      · rcases ih h with h' | h'
        · exact Or.inl (List.mem_cons_of_mem _ h')
        · exact Or.inr h'
    · rw [mapassign, hk, if_pos rfl, List.mem_cons] at h
      rcases h with h | h
      · exact Or.inr h
      · exact Or.inl (List.mem_cons_of_mem _ h)

theorem mem_mapdelete {K V : Type} (T : KeyType K) (m : List (K × V)) (key : K)
    (e : K × V) (h : e ∈ mapdelete T m key) : e ∈ m :=
  (List.mem_filter.1 h).1

theorem pairwise_mapassign {K V : Type} (T : KeyType K) (m : List (K × V)) (key : K) (value : V)
    (h : m.Pairwise (fun a b => T.eq a.1 b.1 = false)) :
    (mapassign T m key value).Pairwise (fun a b => T.eq a.1 b.1 = false) := by
  induction m with
  | nil => simp [mapassign]
  | cons e m ih =>
    obtain ⟨k, v⟩ := e
    rw [List.pairwise_cons] at h
    cases hk : T.eq k key
    · rw [mapassign, hk, if_neg Bool.false_ne_true, List.pairwise_cons]
      refine ⟨fun e he => ?_, ih h.2⟩
      rcases mem_mapassign T m key value e he with h' | h'
      · exact h.1 e h'
      · subst h'
        exact hk
    · rw [mapassign, hk, if_pos rfl, List.pairwise_cons]
      refine ⟨fun e he => ?_, h.2⟩
      by_contra hne
      have h1 : T.eq key e.1 = true := by simpa using hne
      have h2 := T.eq_trans _ _ _ hk h1
      have h3 := h.1 e he
      simp only at h3
      rw [h2] at h3
      exact Bool.noConfusion h3

theorem pairwise_mapdelete {K V : Type} (T : KeyType K) (m : List (K × V)) (key : K)
    (h : m.Pairwise (fun a b => T.eq a.1 b.1 = false)) :
    (mapdelete T m key).Pairwise (fun a b => T.eq a.1 b.1 = false) :=
  List.Pairwise.filter _ h

theorem countP_keys {K V : Type} [Inhabited V] (T : KeyType K) (m : List (K × V)) (key : K)
    (h : m.Pairwise (fun a b => T.eq a.1 b.1 = false)) :
    (m.map Prod.fst).countP (fun k => T.eq k key)
      = if (mapaccess2 T m key).2 = true then 1 else 0 := by
  induction m with
  | nil => simp [mapaccess2]
  | cons e m ih =>
    obtain ⟨k, v⟩ := e
    rw [List.pairwise_cons] at h
    by_cases hk : T.eq k key = true
    · have hrest : ∀ e ∈ m, T.eq e.1 key = false := by
        intro e he
        by_contra hne
        have h1 : T.eq e.1 key = true := by simpa using hne
        have h2 := T.eq_trans _ _ _ hk (T.eq_symm _ _ h1)
        have h3 := h.1 e he
        simp only at h3
        rw [h2] at h3
        exact Bool.noConfusion h3
      have h0 : (m.map Prod.fst).countP (fun k => T.eq k key) = 0 := by
        rw [List.countP_eq_zero]
        intro a ha
        obtain ⟨e, he, rfl⟩ := List.mem_map.1 ha
        simp [hrest e he]
      simp [mapaccess2, hk, List.countP_cons, h0]
    · simp [mapaccess2, hk, List.countP_cons, ih h.2]

/-! ## The entries of a reachable map -/

theorem shardAt_set {K V : Type} (c : List (List (K × V))) (i j : Nat) (es : List (K × V))
    (hi : i < c.length) : shardAt (c.set i es) j = if i = j then es else shardAt c j := by
  simp only [shardAt, List.getD_eq_getElem?_getD, List.getElem?_set]
  by_cases hij : i = j
  · subst hij
    simp [hi]
  · simp [hij]

theorem shardAt_replicate {K V : Type} (n i : Nat) :
    shardAt (List.replicate n ([] : List (K × V))) i = [] := by
  simp only [shardAt, List.getD_eq_getElem?_getD, List.getElem?_replicate]
  by_cases h : i < n <;> simp [h]

theorem ContentInv_replicate {K V : Type} (T : KeyType K) (n : Nat) (hn : n ≠ 0) :
    ContentInv T (List.replicate n ([] : List (K × V))) := by
  refine ⟨?_, fun i => ?_⟩
  · intro h
    have := congrArg List.length h
    simp at this
    exact hn this
  · simp [shardAt_replicate]

theorem ContentInv_set {K V : Type} (T : KeyType K) (c : List (List (K × V))) (key : K)
    (value : V) (h : ContentInv T c) : ContentInv T (contentSet T c key value) := by
  have hn := length_ne_zero c h.1
  have hi := shardOf_lt T c.length key hn
  refine ⟨by simp [contentSet, h.1], fun i => ?_⟩
  simp only [contentSet, List.length_set, shardAt_set c _ i _ hi]
  by_cases hij : shardOf T c.length key = i
  · simp only [hij, if_true]
    refine ⟨fun e he => ?_, pairwise_mapassign T _ key value (h.2 i).2⟩
    rcases mem_mapassign T _ key value e he with h' | h'
    · exact (h.2 i).1 e h'
    · subst h'
      exact hij
  · simp only [hij, if_false]
    exact h.2 i

theorem ContentInv_delete {K V : Type} (T : KeyType K) (c : List (List (K × V))) (key : K)
    (h : ContentInv T c) : ContentInv T (contentDelete T c key) := by
  have hn := length_ne_zero c h.1
  have hi := shardOf_lt T c.length key hn
  refine ⟨by simp [contentDelete, h.1], fun i => ?_⟩
  simp only [contentDelete, List.length_set, shardAt_set c _ i _ hi]
  by_cases hij : shardOf T c.length key = i
  · simp only [hij, if_true]
    exact ⟨fun e he => (h.2 i).1 e (mem_mapdelete T _ key e he),
      pairwise_mapdelete T _ key (h.2 i).2⟩
  · simp only [hij, if_false]
    exact h.2 i

theorem ContentInv_call {K V : Type} [Inhabited V] (T : KeyType K) (c : List (List (K × V)))
    (op : Op K V) (h : ContentInv T c) : ContentInv T (contentCall T c op).2 := by
  cases op with
  | get key => exact h
  | set key value => exact ContentInv_set T c key value h
  | delete key => exact ContentInv_delete T c key h
  | keys ρ => exact h

theorem ContentInv_run {K V : Type} [Inhabited V] (T : KeyType K) (c : List (List (K × V)))
    (ops : List (Op K V)) (h : ContentInv T c) : ContentInv T (contentRun T c ops).2 := by
  induction ops generalizing c with
  | nil => exact h
  | cons op ops ih => exact ih _ (ContentInv_call T c op h)

theorem coerced_ne_zero (numShards : Nat) : (if numShards = 0 then 1 else numShards) ≠ 0 := by
  by_cases h : numShards = 0 <;> simp [h]

theorem replicate_ne_nil {α : Type} (n : Nat) (a : α) (hn : n ≠ 0) : List.replicate n a ≠ [] := by
  intro h
  have := congrArg List.length h
  simp at this
  exact hn this

theorem SM1_run_New {K V : Type} [Inhabited V] (T : KeyType K) (numShards : Nat)
    (ops : List (Op K V)) :
    (NewShardedMap K V numShards).run T ops
      = .ok ((contentRun T (List.replicate (if numShards = 0 then 1 else numShards) []) ops).1,
          ShardedMap.ofContent
            (contentRun T (List.replicate (if numShards = 0 then 1 else numShards) []) ops).2) := by
  rw [NewShardedMap_eq]
  exact SM1_run_ofContent T _ (replicate_ne_nil _ _ (coerced_ne_zero numShards)) ops

theorem SM2_run_New {K V : Type} [Inhabited V] (T : KeyType K) (numShards : Nat)
    (ops : List (Op K V)) :
    (NewShardedMap2 K V numShards).run T ops
      = .ok ((contentRun T (List.replicate (if numShards = 0 then 1 else numShards) []) ops).1,
          ShardedMap2.ofContent
            (contentRun T (List.replicate (if numShards = 0 then 1 else numShards) []) ops).2) := by
  rw [NewShardedMap2_eq]
  exact SM2_run_ofContent T _ (replicate_ne_nil _ _ (coerced_ne_zero numShards)) ops

theorem SM1_Reachable_content {K V : Type} [Inhabited V] (T : KeyType K)
    (sm : ShardedMap K V) (h : sm.Reachable T) :
    ∃ c, ContentInv T c ∧ sm = ShardedMap.ofContent c := by
  obtain ⟨n, ops, rs, hrun⟩ := h
  rw [SM1_run_New] at hrun
  injection hrun with hrun
  injection hrun with _ hsm
  exact ⟨_, ContentInv_run T _ ops (ContentInv_replicate T _ (coerced_ne_zero n)), hsm.symm⟩

theorem SM2_Reachable_content {K V : Type} [Inhabited V] (T : KeyType K)
    (sm : ShardedMap2 K V) (h : sm.Reachable T) :
    ∃ c, ContentInv T c ∧ sm = ShardedMap2.ofContent c := by
  obtain ⟨n, ops, rs, hrun⟩ := h
  rw [SM2_run_New] at hrun
  injection hrun with hrun
  injection hrun with _ hsm
  exact ⟨_, ContentInv_run T _ ops (ContentInv_replicate T _ (coerced_ne_zero n)), hsm.symm⟩

theorem contentGet_contentSet {K V : Type} [Inhabited V] (T : KeyType K)
    (c : List (List (K × V))) (hc : c ≠ []) (key : K) (value : V) (h : T.eq key key = true) :
    contentGet T (contentSet T c key value) key = (value, true) := by
  have hi := shardOf_lt T c.length key (length_ne_zero c hc)
  simp only [contentGet, contentSet, List.length_set, shardAt_set c _ _ _ hi, if_true]
  exact mapaccess2_mapassign T _ key value h

theorem contentGet_contentDelete {K V : Type} [Inhabited V] (T : KeyType K)
    (c : List (List (K × V))) (hc : c ≠ []) (key : K) :
    contentGet T (contentDelete T c key) key = (default, false) := by
  have hi := shardOf_lt T c.length key (length_ne_zero c hc)
  simp only [contentGet, contentDelete, List.length_set, shardAt_set c _ _ _ hi, if_true]
  exact mapaccess2_mapdelete T _ key

theorem contentDelete_absent {K V : Type} [Inhabited V] (T : KeyType K)
    (c : List (List (K × V))) (hc : c ≠ []) (key : K) (h : (contentGet T c key).2 = false) :
    contentDelete T c key = c := by
  have hi := shardOf_lt T c.length key (length_ne_zero c hc)
  simp only [contentDelete, mapdelete_absent T _ key h]
  exact set_same c _ _ (shardAt_some c _ hi)

/-! ## C1: Get after Set -/

/-- C1, as amended: for both structs, in every map built by the constructor (any
`numShards`) and used through any calls, and for every key `k` that is equal to itself
(`k == k`, which only fails for a NaN or a value holding one), `Set(k, v)` returns and
`Get(k)` right after it returns `(v, true)`; in particular after `Set(k, v')` on a new
map, `Set(k, v)` overwrites. -/
theorem C1_get_after_set {K V : Type} [Inhabited V] (T : KeyType K) (k : K)
    (hk : T.eq k k = true) (v v' : V) :
    (∀ sm : ShardedMap K V, sm.Reachable T →
      ∃ sm1, sm.Set T k v = .ok sm1 ∧ sm1.Get T k = .ok ((v, true), sm1)) ∧
    (∀ sm : ShardedMap2 K V, sm.Reachable T →
      ∃ sm1, sm.Set T k v = .ok sm1 ∧ sm1.Get T k = .ok ((v, true), sm1)) ∧
    (∀ numShards, ∃ sm, (NewShardedMap K V numShards).run T [.set k v', .set k v, .get k]
      = .ok ([.done, .done, .got v true], sm)) ∧
    (∀ numShards, ∃ sm, (NewShardedMap2 K V numShards).run T [.set k v', .set k v, .get k]
      = .ok ([.done, .done, .got v true], sm)) := by
  refine ⟨?_, ?_, ?_, ?_⟩
  · intro sm hsm
    obtain ⟨c, hc, rfl⟩ := SM1_Reachable_content T sm hsm
    refine ⟨_, SM1_Set_ofContent T c hc.1 k v, ?_⟩
    rw [SM1_Get_ofContent T _ (ContentInv_set T c k v hc).1,
      contentGet_contentSet T c hc.1 k v hk]
  · intro sm hsm
    obtain ⟨c, hc, rfl⟩ := SM2_Reachable_content T sm hsm
    refine ⟨_, SM2_Set_ofContent T c hc.1 k v, ?_⟩
    rw [SM2_Get_ofContent T _ (ContentInv_set T c k v hc).1,
      contentGet_contentSet T c hc.1 k v hk]
  · intro n
    have hc := (ContentInv_set T _ k v' (ContentInv_replicate (V := V) T _ (coerced_ne_zero n))).1
    have h := contentGet_contentSet T _ hc k v hk
    refine ⟨ShardedMap.ofContent (contentRun T (List.replicate (if n = 0 then 1 else n) [])
      [.set k v', .set k v, .get k]).2, ?_⟩
    rw [SM1_run_New]
    simp only [contentRun, contentCall, h]
  · intro n
    have hc := (ContentInv_set T _ k v' (ContentInv_replicate (V := V) T _ (coerced_ne_zero n))).1
    have h := contentGet_contentSet T _ hc k v hk
    refine ⟨ShardedMap2.ofContent (contentRun T (List.replicate (if n = 0 then 1 else n) [])
      [.set k v', .set k v, .get k]).2, ?_⟩
    rw [SM2_run_New]
    simp only [contentRun, contentCall, h]

/-- Witness of C1 as amended: the key `"alice"` on a new map of 16 shards. -/
theorem C1_get_after_set_witness :
    goKeys.eq (GoKey.str "alice") (GoKey.str "alice") = true ∧
    ∃ sm1, (NewShardedMap GoKey Nat 16).Set goKeys (GoKey.str "alice") 42 = .ok sm1 ∧
      sm1.Get goKeys (GoKey.str "alice") = .ok ((42, true), sm1) :=
  ⟨by decide,
    (C1_get_after_set goKeys (GoKey.str "alice") (by decide) 42 0).1 _ ⟨16, [], [], rfl⟩⟩

/-- C1 as stated fails for a NaN key of type `float64`: on a new map, `Set(NaN, 7)` returns,
and `Get(NaN)` right after it returns `(0, false)`, in both structs. -/
theorem C1_nan_not_found :
    (∃ sm, (NewShardedMap GoKey Nat 16).run goKeys
      [.set (.float64 .nan) 7, .get (.float64 .nan)] = .ok ([.done, .got 0 false], sm)) ∧
    (∃ sm, (NewShardedMap2 GoKey Nat 16).run goKeys
      [.set (.float64 .nan) 7, .get (.float64 .nan)] = .ok ([.done, .got 0 false], sm)) :=
  ⟨⟨_, rfl⟩, ⟨_, rfl⟩⟩

/-! ## C2: Delete -/

/-- C2: for both structs, in every map reachable from the constructor and for every key
`k`, `Delete(k)` returns and `Get(k)` after it reports `found = false` (with the zero
value); and when `Get(k)` reported `found = false` before the call, `Delete(k)` leaves the
map as it was, so every `Get` and every `Keys` gives what it gave before. -/
theorem C2_delete {K V : Type} [Inhabited V] (T : KeyType K) (k : K) :
    (∀ sm : ShardedMap K V, sm.Reachable T →
      ∃ sm1, sm.Delete T k = .ok sm1 ∧ sm1.Get T k = .ok ((default, false), sm1) ∧
        (∀ val sm0, sm.Get T k = .ok ((val, false), sm0) →
          sm1 = sm ∧ (∀ k', sm1.Get T k' = sm.Get T k') ∧ ∀ ρ, sm1.Keys ρ = sm.Keys ρ)) ∧
    (∀ sm : ShardedMap2 K V, sm.Reachable T →
      ∃ sm1, sm.Delete T k = .ok sm1 ∧ sm1.Get T k = .ok ((default, false), sm1) ∧
        (∀ val sm0, sm.Get T k = .ok ((val, false), sm0) →
          sm1 = sm ∧ (∀ k', sm1.Get T k' = sm.Get T k') ∧ ∀ ρ, sm1.Keys ρ = sm.Keys ρ)) := by
  refine ⟨?_, ?_⟩
  · intro sm hsm
    obtain ⟨c, hc, rfl⟩ := SM1_Reachable_content T sm hsm
    refine ⟨_, SM1_Delete_ofContent T c hc.1 k, ?_, ?_⟩
    · rw [SM1_Get_ofContent T _ (ContentInv_delete T c k hc).1,
        contentGet_contentDelete T c hc.1 k]
    · intro val sm0 hget
      rw [SM1_Get_ofContent T c hc.1] at hget
      injection hget with hget
      have habs : (contentGet T c k).2 = false := by
        have := congrArg (fun p => p.1.2) hget
        simpa using this
      rw [contentDelete_absent T c hc.1 k habs]
      exact ⟨rfl, fun _ => rfl, fun _ => rfl⟩
  · intro sm hsm
    obtain ⟨c, hc, rfl⟩ := SM2_Reachable_content T sm hsm
    refine ⟨_, SM2_Delete_ofContent T c hc.1 k, ?_, ?_⟩
    · rw [SM2_Get_ofContent T _ (ContentInv_delete T c k hc).1,
        contentGet_contentDelete T c hc.1 k]
    · intro val sm0 hget
      rw [SM2_Get_ofContent T c hc.1] at hget
      injection hget with hget
      have habs : (contentGet T c k).2 = false := by
        have := congrArg (fun p => p.1.2) hget
        simpa using this
      rw [contentDelete_absent T c hc.1 k habs]
      exact ⟨rfl, fun _ => rfl, fun _ => rfl⟩

/-- Witness of C2: deleting `"charlie"` from the map that `main` of `1.main.go` builds. -/
theorem C2_delete_witness :
    ∃ rs sm, (NewShardedMap2 GoKey Nat 16).run goKeys
        [.set (GoKey.str "alice") 42, .set (GoKey.str "charlie") 7] = .ok (rs, sm) ∧
      ∃ sm1, sm.Delete goKeys (GoKey.str "charlie") = .ok sm1 ∧
        sm1.Get goKeys (GoKey.str "charlie") = .ok ((0, false), sm1) := by
  refine ⟨_, _, SM2_run_New goKeys 16 _, ?_⟩
  obtain ⟨sm1, h1, h2, _⟩ := (C2_delete goKeys (GoKey.str "charlie")).2 _
    ⟨16, [.set (GoKey.str "alice") 42, .set (GoKey.str "charlie") 7], _,
      SM2_run_New goKeys 16 _⟩
  exact ⟨sm1, h1, h2⟩

/-! ## C3: the shard index is in range -/

theorem SM1_getShardIndex_ofContent {K V : Type} (T : KeyType K)
    (c : List (List (K × V))) (hc : c ≠ []) (key : K) :
    (ShardedMap.ofContent c).getShardIndex T key = .ok (shardOf T c.length key) := by
  simp [ShardedMap.getShardIndex, modShards, ShardedMap.ofContent, length_ne_zero c hc, shardOf,
    hc]

theorem SM2_getShardIndex_ofContent {K V : Type} (T : KeyType K)
    (c : List (List (K × V))) (hc : c ≠ []) (key : K) :
    (ShardedMap2.ofContent c).getShardIndex T key = .ok (shardOf T c.length key) := by
  simp [ShardedMap2.getShardIndex, modShards, ShardedMap2.ofContent, length_ne_zero c hc,
    shardOf, hc]

/-- C3: for both structs, in every map built by the constructor (whatever `numShards` was
asked for, zero included) and used through any calls, `getShardIndex(key)` returns an index
below `numShards` for every key; and the reduction `hash % numShards` lands below
`numShards` for every hash value as soon as `numShards >= 1`. -/
theorem C3_shard_index_in_range {K V : Type} [Inhabited V] (T : KeyType K) :
    (∀ sm : ShardedMap K V, sm.Reachable T →
      ∀ key, ∃ i, sm.getShardIndex T key = .ok i ∧ i < sm.numShards) ∧
    (∀ sm : ShardedMap2 K V, sm.Reachable T →
      ∀ key, ∃ i, sm.getShardIndex T key = .ok i ∧ i < sm.numShards) ∧
    (∀ numShards key, ∃ i, (NewShardedMap K V numShards).getShardIndex T key = .ok i ∧
      i < (NewShardedMap K V numShards).numShards) ∧
    (∀ numShards key, ∃ i, (NewShardedMap2 K V numShards).getShardIndex T key = .ok i ∧
      i < (NewShardedMap2 K V numShards).numShards) ∧
    (∀ hash numShards, 1 ≤ numShards →
      modShards hash numShards = .ok (hash % numShards) ∧ hash % numShards < numShards) := by
  refine ⟨?_, ?_, ?_, ?_, ?_⟩
  · intro sm hsm key
    obtain ⟨c, hc, rfl⟩ := SM1_Reachable_content T sm hsm
    exact ⟨_, SM1_getShardIndex_ofContent T c hc.1 key,
      shardOf_lt T c.length key (length_ne_zero c hc.1)⟩
  · intro sm hsm key
    obtain ⟨c, hc, rfl⟩ := SM2_Reachable_content T sm hsm
    exact ⟨_, SM2_getShardIndex_ofContent T c hc.1 key,
      shardOf_lt T c.length key (length_ne_zero c hc.1)⟩
  · intro n key
    rw [NewShardedMap_eq]
    have hc := replicate_ne_nil _ ([] : List (K × V)) (coerced_ne_zero n)
    exact ⟨_, SM1_getShardIndex_ofContent T _ hc key,
      shardOf_lt T _ key (length_ne_zero _ hc)⟩
  · intro n key
    rw [NewShardedMap2_eq]
    have hc := replicate_ne_nil _ ([] : List (K × V)) (coerced_ne_zero n)
    exact ⟨_, SM2_getShardIndex_ofContent T _ hc key,
      shardOf_lt T _ key (length_ne_zero _ hc)⟩
  · intro hash n hn
    have h0 : n ≠ 0 := by omega
    exact ⟨by simp [modShards, h0], Nat.mod_lt _ hn⟩

/-- Witness of C3: the key `"bob"` in a map asked for with zero shards goes to shard 0,
and the largest 64-bit hash value among 64 shards goes to shard 63. -/
theorem C3_shard_index_in_range_witness :
    (∃ i, (NewShardedMap GoKey Nat 0).getShardIndex goKeys (GoKey.str "bob") = .ok i ∧
      i < (NewShardedMap GoKey Nat 0).numShards) ∧
    1 ≤ 64 ∧ modShards (2 ^ 64 - 1) 64 = .ok ((2 ^ 64 - 1) % 64) ∧ (2 ^ 64 - 1) % 64 < 64 :=
  ⟨(C3_shard_index_in_range (V := Nat) goKeys).1 _ ⟨0, [], [], rfl⟩ (GoKey.str "bob"),
    by decide, (C3_shard_index_in_range (K := GoKey) (V := Nat) goKeys).2.2.2.2 _ 64 (by decide)⟩

/-! ## C4: a key lives in the shard of its hash -/

theorem eq_str_print (s : String) (k : GoKey)
    (h : goKeys.eq k (GoKey.str s) = true) (hd : goKeys.dyn k = .other) :
    goKeys.Sprint k = goKeys.Sprint (GoKey.str s) := by
  cases k <;> simp [goKeys, GoKey.eq, GoKey.str, GoKey.dyn] at h hd

theorem SM1_stores_ofContent {K V : Type} [Inhabited V] (T : KeyType K)
    (c : List (List (K × V))) (hc : ContentInv T c) (i : Nat) (k : K)
    (hk : ∀ k', T.eq k' k = true → T.dyn k' = .other → T.Sprint k' = T.Sprint k)
    (h : (ShardedMap.ofContent c).stores T i k) :
    shardOf T c.length k = i := by
  obtain ⟨m, hm, hfound⟩ := h
  have hi : i < c.length := by
    have := (List.getElem?_eq_some.1 hm).1
    simpa [ShardedMap.ofContent] using this
  rw [SM1_ofContent_shards c i hi] at hm
  injection hm with hm
  subst hm
  obtain ⟨e, he, heq⟩ := (mapaccess2_found T _ k).1 hfound
  rw [← (hc.2 i).1 e he]
  exact congrArg (· % c.length) (hashKey_congr T e.1 k heq (hk e.1 heq)).symm

theorem SM2_stores_ofContent {K V : Type} [Inhabited V] (T : KeyType K)
    (c : List (List (K × V))) (hc : ContentInv T c) (i : Nat) (k : K)
    (hk : ∀ k', T.eq k' k = true → T.dyn k' = .other → T.Sprint k' = T.Sprint k)
    (h : (ShardedMap2.ofContent c).stores T i k) :
    shardOf T c.length k = i := by
  obtain ⟨b, hb, hfound⟩ := h
  have hi : i < c.length := by
    have := (List.getElem?_eq_some.1 hb).1
    simpa [ShardedMap2.ofContent] using this
  rw [SM2_ofContent_shards c i hi] at hb
  injection hb with hb
  injection hb with hb
  subst hb
  obtain ⟨e, he, heq⟩ := (mapaccess2_found T _ k).1 hfound
  rw [← (hc.2 i).1 e he]
  exact congrArg (· % c.length) (hashKey_congr T e.1 k heq (hk e.1 heq)).symm

/-- C4, as amended: for both structs, in every map reachable from the constructor, and for
every key `k` that is a string, an `int` or a `uint64`, or for which `fmt.Sprint` prints the
same text as for every key equal to it: a shard in which the lookup of `k` finds an entry is
the shard whose index `getShardIndex(k)` returns, `hash(k) mod numShards`; hence `k` is found
in at most one shard. -/
theorem C4_key_in_one_shard {K V : Type} [Inhabited V] (T : KeyType K) (k : K)
    (hk : ∀ k', T.eq k' k = true → T.dyn k' = .other → T.Sprint k' = T.Sprint k) :
    (∀ sm : ShardedMap K V, sm.Reachable T → ∀ i, sm.stores T i k →
      sm.getShardIndex T k = .ok i ∧ i = hashKey T k % sm.numShards ∧
        ∀ j, sm.stores T j k → j = i) ∧
    (∀ sm : ShardedMap2 K V, sm.Reachable T → ∀ i, sm.stores T i k →
      sm.getShardIndex T k = .ok i ∧ i = hashKey T k % sm.numShards ∧
        ∀ j, sm.stores T j k → j = i) := by
  refine ⟨?_, ?_⟩
  · intro sm hsm i hst
    obtain ⟨c, hc, rfl⟩ := SM1_Reachable_content T sm hsm
    have hi := SM1_stores_ofContent T c hc i k hk hst
    refine ⟨?_, hi.symm, fun j hj => ?_⟩
    · rw [SM1_getShardIndex_ofContent T c hc.1, hi]
    · rw [← hi, ← SM1_stores_ofContent T c hc j k hk hj]
  · intro sm hsm i hst
    obtain ⟨c, hc, rfl⟩ := SM2_Reachable_content T sm hsm
    have hi := SM2_stores_ofContent T c hc i k hk hst
    refine ⟨?_, hi.symm, fun j hj => ?_⟩
    · rw [SM2_getShardIndex_ofContent T c hc.1, hi]
    · rw [← hi, ← SM2_stores_ofContent T c hc j k hk hj]

/-- Witness of C4 as amended: after `Set("alice", 42)` on a new map of 16 shards, the lookup
of `"alice"` finds an entry in shard 7, and 7 is the index `getShardIndex` computes for it. -/
theorem C4_key_in_one_shard_witness :
    ∃ rs sm, (NewShardedMap2 GoKey Nat 16).run goKeys [.set (GoKey.str "alice") 42]
        = .ok (rs, sm) ∧
      sm.stores goKeys 7 (GoKey.str "alice") ∧
      sm.getShardIndex goKeys (GoKey.str "alice") = .ok 7 := by
  have hst : (ShardedMap2.ofContent (contentRun goKeys
      (List.replicate (if 16 = 0 then 1 else 16) [])
      [Op.set (GoKey.str "alice") (42 : Nat)]).2).stores goKeys 7 (GoKey.str "alice") :=
    ⟨_, rfl, rfl⟩
  exact ⟨_, _, SM2_run_New goKeys 16 _, hst,
    ((C4_key_in_one_shard goKeys (GoKey.str "alice") (eq_str_print "alice")).2 _
      ⟨16, _, _, SM2_run_New goKeys 16 _⟩ 7 hst).1⟩

/-- C4 as stated fails for `float64` keys. `0 == -0`, but among two shards `0` hashes to
shard 1 and `-0` to shard 0. After `Set(0, 1)` and `Set(-0, 2)` the lookup of the key `0`
finds an entry in shard 0 and in shard 1, and shard 0 is not the shard `getShardIndex(0)`
returns. -/
theorem C4_float_zero_in_two_shards :
    goKeys.eq (.float64 (.zero true)) (.float64 (.zero false)) = true ∧
    (∃ rs sm, (NewShardedMap GoKey Nat 2).run goKeys
        [.set (.float64 (.zero false)) 1, .set (.float64 (.zero true)) 2] = .ok (rs, sm) ∧
      sm.stores goKeys 0 (.float64 (.zero false)) ∧
      sm.stores goKeys 1 (.float64 (.zero false)) ∧
      sm.getShardIndex goKeys (.float64 (.zero false)) = .ok 1) ∧
    (∃ rs sm, (NewShardedMap2 GoKey Nat 2).run goKeys
        [.set (.float64 (.zero false)) 1, .set (.float64 (.zero true)) 2] = .ok (rs, sm) ∧
      sm.stores goKeys 0 (.float64 (.zero false)) ∧
      sm.stores goKeys 1 (.float64 (.zero false)) ∧
      sm.getShardIndex goKeys (.float64 (.zero false)) = .ok 1) :=
  ⟨rfl, ⟨_, _, SM1_run_New goKeys 2 _, ⟨_, rfl, rfl⟩, ⟨_, rfl, rfl⟩, rfl⟩,
    ⟨_, _, SM2_run_New goKeys 2 _, ⟨_, rfl, rfl⟩, ⟨_, rfl, rfl⟩, rfl⟩⟩

/-! ## C5: Keys -/

theorem countP_keysOver {K V : Type} [Inhabited V] (T : KeyType K) (ρ : RangeOrder K)
    (c : List (List (K × V))) (hc : ContentInv T c) (key : K)
    (hkey : ∀ k, T.eq k key = true → shardOf T c.length k = shardOf T c.length key)
    (indices : List Nat) (hnd : indices.Nodup) :
    (keysOver ρ c indices).countP (fun k => T.eq k key)
      = if shardOf T c.length key ∈ indices then
          (if (contentGet T c key).2 = true then 1 else 0) else 0 := by
  induction indices with
  | nil => simp [keysOver]
  | cons i rest ih =>
    rw [List.nodup_cons] at hnd
    have hsplit : keysOver ρ c (i :: rest)
        = ρ.order i ((shardAt c i).map Prod.fst) ++ keysOver ρ c rest := by
      simp [keysOver, List.flatMap_cons]
    rw [hsplit, List.countP_append, (ρ.perm i _).countP_eq, ih hnd.2]
    by_cases hi : shardOf T c.length key = i
    · subst hi
      rw [countP_keys T _ key (hc.2 _).2]
      simp [hnd.1, contentGet]
    · have h0 : ((shardAt c i).map Prod.fst).countP (fun k => T.eq k key) = 0 := by
        rw [List.countP_eq_zero]
        intro a ha hne
        obtain ⟨e, he, rfl⟩ := List.mem_map.1 ha
        exact hi ((hkey e.1 hne).symm.trans ((hc.2 i).1 e he))
      rw [h0]
      simp [hi]

theorem countP_contentKeys {K V : Type} [Inhabited V] (T : KeyType K) (ρ : RangeOrder K)
    (c : List (List (K × V))) (hc : ContentInv T c) (key : K)
    (hkey : ∀ k, T.eq k key = true → shardOf T c.length k = shardOf T c.length key) :
    (contentKeys ρ c).countP (fun k => T.eq k key)
      = if (contentGet T c key).2 = true then 1 else 0 := by
  rw [contentKeys, countP_keysOver T ρ c hc key hkey _ (List.nodup_range _)]
  simp [shardOf_lt T c.length key (length_ne_zero c hc.1)]

theorem SM1_shardKeys_ofContent {K V : Type} (cs : List (List (K × V))) (i : Nat) :
    (ShardedMap.ofContent cs).shardKeys i = (shardAt cs i).map Prod.fst := by
  simp only [ShardedMap.shardKeys, ShardedMap.ofContent, shardAt, List.getD_eq_getElem?_getD,
    List.getElem?_map]
  cases cs[i]? <;> simp [GoMap.keys]

theorem SM2_shardKeys_ofContent {K V : Type} (cs : List (List (K × V))) (i : Nat) :
    (ShardedMap2.ofContent cs).shardKeys i = (shardAt cs i).map Prod.fst := by
  simp only [ShardedMap2.shardKeys, ShardedMap2.ofContent, shardAt, List.getD_eq_getElem?_getD,
    List.getElem?_map]
  cases cs[i]? <;> simp [GoMap.keys]

/-- C5, as amended: with no other goroutine at work, for both structs and every map
reachable from the constructor, `Keys()` returns, leaves the map as it was, and yields the
keys of shard 0, then of shard 1, and so on up to shard `numShards - 1` (each shard in the
order `range` gives). For every key `k` that is a string, an `int` or a `uint64`, or for
which `fmt.Sprint` prints the same text as for every key equal to it, the result holds
exactly one key equal to `k` when `Get(k)` reports `found = true`, and none when it
reports `found = false`. -/
theorem C5_keys {K V : Type} [Inhabited V] (T : KeyType K) :
    (∀ sm : ShardedMap K V, sm.Reachable T → ∀ ρ : RangeOrder K,
      ∃ ks, sm.Keys ρ = .ok (ks, sm) ∧
        ks = (List.range sm.numShards).flatMap (fun i => ρ.order i (sm.shardKeys i)) ∧
        ∀ k, (∀ k', T.eq k' k = true → T.dyn k' = .other → T.Sprint k' = T.Sprint k) →
          ∀ val found sm', sm.Get T k = .ok ((val, found), sm') →
            ks.countP (fun k' => T.eq k' k) = if found = true then 1 else 0) ∧
    (∀ sm : ShardedMap2 K V, sm.Reachable T → ∀ ρ : RangeOrder K,
      ∃ ks, sm.Keys ρ = .ok (ks, sm) ∧
        ks = (List.range sm.numShards).flatMap (fun i => ρ.order i (sm.shardKeys i)) ∧
        ∀ k, (∀ k', T.eq k' k = true → T.dyn k' = .other → T.Sprint k' = T.Sprint k) →
          ∀ val found sm', sm.Get T k = .ok ((val, found), sm') →
            ks.countP (fun k' => T.eq k' k) = if found = true then 1 else 0) := by
  refine ⟨?_, ?_⟩
  · intro sm hsm ρ
    obtain ⟨c, hc, rfl⟩ := SM1_Reachable_content T sm hsm
    refine ⟨_, SM1_Keys_ofContent ρ c, ?_, ?_⟩
    · simp only [contentKeys, keysOver, SM1_shardKeys_ofContent]
      rfl
    · intro k hk val found sm' hget
      rw [SM1_Get_ofContent T c hc.1] at hget
      injection hget with hget
      have hf : (contentGet T c k).2 = found := by
        have := congrArg (fun p => p.1.2) hget
        simpa using this
      rw [countP_contentKeys T ρ c hc k
        (fun k' h => congrArg (· % c.length) (hashKey_congr T k' k h (hk k' h))), hf]
  · intro sm hsm ρ
    obtain ⟨c, hc, rfl⟩ := SM2_Reachable_content T sm hsm
    refine ⟨_, SM2_Keys_ofContent ρ c, ?_, ?_⟩
    · simp only [contentKeys, keysOver, SM2_shardKeys_ofContent]
      rfl
    · intro k hk val found sm' hget
      rw [SM2_Get_ofContent T c hc.1] at hget
      injection hget with hget
      have hf : (contentGet T c k).2 = found := by
        have := congrArg (fun p => p.1.2) hget
        simpa using this
      rw [countP_contentKeys T ρ c hc k
        (fun k' h => congrArg (· % c.length) (hashKey_congr T k' k h (hk k' h))), hf]

/-- Witness of C5 as amended: after `Set("alice", 42)` and `Set("bob", 19)` on a new map of
16 shards, `Keys()` holds `"alice"` once. -/
theorem C5_keys_witness :
    ∃ rs sm, (NewShardedMap2 GoKey Nat 16).run goKeys
        [.set (GoKey.str "alice") 42, .set (GoKey.str "bob") 19] = .ok (rs, sm) ∧
      ∃ ks, sm.Keys (RangeOrder.id GoKey) = .ok (ks, sm) ∧
        ks.countP (fun k' => goKeys.eq k' (GoKey.str "alice")) = 1 := by
  refine ⟨_, _, SM2_run_New goKeys 16 _, ?_⟩
  obtain ⟨ks, hks, _, hcount⟩ := (C5_keys goKeys).2 _
    ⟨16, [.set (GoKey.str "alice") 42, .set (GoKey.str "bob") 19], _, SM2_run_New goKeys 16 _⟩
    (RangeOrder.id GoKey)
  exact ⟨ks, hks, hcount (GoKey.str "alice") (eq_str_print "alice") 42 true _ rfl⟩

/-- C5 as stated fails for `float64` keys. With two shards, `0` goes to shard 1 and `-0` to
shard 0 although `0 == -0`: after `Set(0, 1)` and `Set(-0, 2)`, `Get(0)` reports
`found = true` and `Keys()` returns `[-0, 0]`, two keys equal to `0`. And after
`Set(NaN, 1)`, `Get(NaN)` reports `found = false` while `Keys()` returns `[NaN]`. Every shard
holds at most one key here, so the order of `range` plays no part. -/
theorem C5_float_keys_twice :
    goKeys.eq (.float64 (.zero true)) (.float64 (.zero false)) = true ∧
    (∃ sm, (NewShardedMap GoKey Nat 2).run goKeys
        [.set (.float64 (.zero false)) 1, .set (.float64 (.zero true)) 2,
          .get (.float64 (.zero false)), .keys (RangeOrder.id GoKey)]
      = .ok ([.done, .done, .got 1 true,
          .keyList [.float64 (.zero true), .float64 (.zero false)]], sm)) ∧
    (∃ sm, (NewShardedMap2 GoKey Nat 2).run goKeys
        [.set (.float64 (.zero false)) 1, .set (.float64 (.zero true)) 2,
          .get (.float64 (.zero false)), .keys (RangeOrder.id GoKey)]
      = .ok ([.done, .done, .got 1 true,
          .keyList [.float64 (.zero true), .float64 (.zero false)]], sm)) ∧
    [GoKey.float64 (.zero true), GoKey.float64 (.zero false)].countP
      (fun k' => goKeys.eq k' (.float64 (.zero false))) = 2 ∧
    (∃ sm, (NewShardedMap GoKey Nat 2).run goKeys
        [.set (.float64 .nan) 1, .get (.float64 .nan), .keys (RangeOrder.id GoKey)]
      = .ok ([.done, .got 0 false, .keyList [.float64 .nan]], sm)) ∧
    (∃ sm, (NewShardedMap2 GoKey Nat 2).run goKeys
        [.set (.float64 .nan) 1, .get (.float64 .nan), .keys (RangeOrder.id GoKey)]
      = .ok ([.done, .got 0 false, .keyList [.float64 .nan]], sm)) :=
  ⟨rfl, ⟨_, rfl⟩, ⟨_, rfl⟩, rfl, ⟨_, rfl⟩, ⟨_, rfl⟩⟩

/-! ## C6: the constructors -/

/-- C6, as amended: for every `numShards` whose slices `make` accepts, `numShards` (1 when
zero was asked for) times the size of an element being at most `maxAlloc`, the constructor
returns a map whose field `numShards` is `numShards`, or 1 when zero was asked for, and
equals the length of the shard slice (and of the lock slice in `ShardedMap`). For every
other `numShards` the constructor panics in `make` and builds no map. -/
theorem C6_constructor_shard_count (K V : Type) (numShards : Nat) :
    ((if numShards = 0 then 1 else numShards) * sizeofRWMutex ≤ maxAlloc →
      ∃ sm, NewShardedMap.call K V numShards = .ok sm ∧
        sm.numShards = (if numShards = 0 then 1 else numShards) ∧
        sm.shards.length = sm.numShards ∧ sm.locks.length = sm.numShards) ∧
    (maxAlloc < (if numShards = 0 then 1 else numShards) * sizeofRWMutex →
      NewShardedMap.call K V numShards = .error .lenOutOfRange) ∧
    ((if numShards = 0 then 1 else numShards) * sizeofPointer ≤ maxAlloc →
      ∃ sm, NewShardedMap2.call K V numShards = .ok sm ∧
        sm.numShards = (if numShards = 0 then 1 else numShards) ∧
        sm.shards.length = sm.numShards) ∧
    (maxAlloc < (if numShards = 0 then 1 else numShards) * sizeofPointer →
      NewShardedMap2.call K V numShards = .error .lenOutOfRange) := by
  refine ⟨fun h => ?_, fun h => ?_, fun h => ?_, fun h => ?_⟩
  · have h8 : ¬ maxAlloc < (if numShards = 0 then 1 else numShards) * sizeofPointer := by
      unfold sizeofPointer
      unfold sizeofRWMutex at h
      omega
    refine ⟨NewShardedMap K V numShards, ?_, ?_⟩
    · simp only [NewShardedMap.call, makeslice, if_neg h8, if_neg (Nat.not_lt.2 h)]
      rfl
    · rw [NewShardedMap_eq]
      simp [ShardedMap.ofContent]
  · by_cases h8 : maxAlloc < (if numShards = 0 then 1 else numShards) * sizeofPointer
    · simp only [NewShardedMap.call, makeslice, if_pos h8]
      rfl
    · simp only [NewShardedMap.call, makeslice, if_neg h8, if_pos h]
      rfl
  · refine ⟨NewShardedMap2 K V numShards, ?_, ?_⟩
    · simp only [NewShardedMap2.call, makeslice, if_neg (Nat.not_lt.2 h)]
      rfl
    · rw [NewShardedMap2_eq]
      simp [ShardedMap2.ofContent]
  · simp only [NewShardedMap2.call, makeslice, if_pos h]
    rfl

/-- Witness of C6 as amended: zero shards asked for gives one shard, sixteen give sixteen. -/
theorem C6_constructor_shard_count_witness :
    (∃ sm, NewShardedMap.call GoKey Nat 0 = .ok sm ∧ sm.numShards = 1 ∧
      sm.shards.length = sm.numShards ∧ sm.locks.length = sm.numShards) ∧
    (∃ sm, NewShardedMap2.call GoKey Nat 16 = .ok sm ∧ sm.numShards = 16 ∧
      sm.shards.length = sm.numShards) :=
  ⟨(C6_constructor_shard_count GoKey Nat 0).1 (by decide),
    (C6_constructor_shard_count GoKey Nat 16).2.2.1 (by decide)⟩

/-- C6 as stated fails for large shard counts: with `numShards = 1 << 62`, and with the
largest `uint64`, both constructors panic in `make` (makeslice: len out of range) and build
no map. -/
theorem C6_huge_shard_count_panics :
    NewShardedMap.call GoKey Nat (2 ^ 62) = .error .lenOutOfRange ∧
    NewShardedMap2.call GoKey Nat (2 ^ 62) = .error .lenOutOfRange ∧
    NewShardedMap.call GoKey Nat (2 ^ 64 - 1) = .error .lenOutOfRange ∧
    NewShardedMap2.call GoKey Nat (2 ^ 64 - 1) = .error .lenOutOfRange := by
  have h1 : maxAlloc < (if 2 ^ 62 = 0 then 1 else 2 ^ 62) * sizeofPointer := by decide
  have h2 : maxAlloc < (if 2 ^ 64 - 1 = 0 then 1 else 2 ^ 64 - 1) * sizeofPointer := by decide
  refine ⟨?_, ?_, ?_, ?_⟩
  · simp only [NewShardedMap.call, makeslice, if_pos h1]
    rfl
  · simp only [NewShardedMap2.call, makeslice, if_pos h1]
    rfl
  · simp only [NewShardedMap.call, makeslice, if_pos h2]
    rfl
  · simp only [NewShardedMap2.call, makeslice, if_pos h2]
    rfl

/-! ## C7: new maps and untouched keys -/

theorem keysOver_replicate {K V : Type} (ρ : RangeOrder K) (n : Nat) (indices : List Nat) :
    keysOver ρ (List.replicate n ([] : List (K × V))) indices = [] := by
  induction indices with
  | nil => rfl
  | cons i rest ih =>
    have hnil : ρ.order i [] = [] := List.Perm.eq_nil (ρ.perm i [])
    have hsplit : keysOver ρ (List.replicate n ([] : List (K × V))) (i :: rest)
        = ρ.order i ((shardAt (List.replicate n ([] : List (K × V))) i).map Prod.fst)
          ++ keysOver ρ (List.replicate n ([] : List (K × V))) rest := by
      simp [keysOver, List.flatMap_cons]
    rw [hsplit, ih, shardAt_replicate]
    simp [hnil]

theorem contentGet_replicate {K V : Type} [Inhabited V] (T : KeyType K) (n : Nat) (key : K) :
    contentGet T (List.replicate n ([] : List (K × V))) key = (default, false) := by
  simp [contentGet, shardAt_replicate, mapaccess2]

theorem stored_keys_call {K V : Type} [Inhabited V] (T : KeyType K) (P : K → Prop)
    (c : List (List (K × V))) (hc : c ≠ []) (op : Op K V)
    (hstored : ∀ i, ∀ e ∈ shardAt c i, P e.1) (hset : ∀ k ∈ setKeys [op], P k) :
    ∀ i, ∀ e ∈ shardAt (contentCall T c op).2 i, P e.1 := by
  have hn := length_ne_zero c hc
  cases op with
  | get key => exact hstored
  | keys ρ => exact hstored
  | set key value =>
    intro i e he
    simp only [contentCall, contentSet, shardAt_set c _ i _ (shardOf_lt T c.length key hn)] at he
    by_cases hij : shardOf T c.length key = i
    · rw [if_pos hij] at he
      rcases mem_mapassign T _ key value e he with h | h
      · exact hstored _ e h
      · subst h
        exact hset key (by simp [setKeys])
    · rw [if_neg hij] at he
      exact hstored i e he
  | delete key =>
    intro i e he
    simp only [contentCall, contentDelete,
      shardAt_set c _ i _ (shardOf_lt T c.length key hn)] at he
    by_cases hij : shardOf T c.length key = i
    · rw [if_pos hij] at he
      exact hstored _ e (mem_mapdelete T _ key e he)
    · rw [if_neg hij] at he
      exact hstored i e he

theorem setKeys_cons {K V : Type} (op : Op K V) (ops : List (Op K V)) :
    setKeys (op :: ops) = setKeys [op] ++ setKeys ops := by
  cases op <;> simp [setKeys]

theorem stored_keys_run {K V : Type} [Inhabited V] (T : KeyType K) (P : K → Prop)
    (c : List (List (K × V))) (hc : c ≠ []) (ops : List (Op K V))
    (hstored : ∀ i, ∀ e ∈ shardAt c i, P e.1) (hset : ∀ k ∈ setKeys ops, P k) :
    ∀ i, ∀ e ∈ shardAt (contentRun T c ops).2 i, P e.1 := by
  induction ops generalizing c with
  | nil => exact hstored
  | cons op ops ih =>
    rw [setKeys_cons] at hset
    exact ih _ (contentCall_ne_nil T c hc op)
      (stored_keys_call T P c hc op hstored (fun k hk => hset k (List.mem_append_left _ hk)))
      (fun k hk => hset k (List.mem_append_right _ hk))

theorem contentGet_untouched {K V : Type} [Inhabited V] (T : KeyType K) (n : Nat)
    (ops : List (Op K V)) (key : K) (h : ∀ k ∈ setKeys ops, T.eq k key = false) :
    contentGet T (contentRun T (List.replicate (if n = 0 then 1 else n) []) ops).2 key
      = (default, false) := by
  apply mapaccess2_absent
  intro e he
  exact stored_keys_run T (fun k => T.eq k key = false) _
    (replicate_ne_nil _ _ (coerced_ne_zero n)) ops
    (by simp [shardAt_replicate]) h _ e he

/-- C7: for both structs, on a newly constructed map (any `numShards`) `Get(k)` returns the
zero value and `found = false` for every key `k`, and `Keys()` returns no key; and after
any calls on such a map, `Get(k)` still returns the zero value and `found = false` for a
key `k` that no `Set` was called with (no `Set` had a key equal to `k`). -/
theorem C7_untouched_key_not_found {K V : Type} [Inhabited V] (T : KeyType K) :
    (∀ numShards k, (NewShardedMap K V numShards).Get T k
      = .ok ((default, false), NewShardedMap K V numShards)) ∧
    (∀ numShards ρ, (NewShardedMap K V numShards).Keys ρ
      = .ok (([] : List K), NewShardedMap K V numShards)) ∧
    (∀ numShards k, (NewShardedMap2 K V numShards).Get T k
      = .ok ((default, false), NewShardedMap2 K V numShards)) ∧
    (∀ numShards ρ, (NewShardedMap2 K V numShards).Keys ρ
      = .ok (([] : List K), NewShardedMap2 K V numShards)) ∧
    (∀ numShards ops rs sm k, (NewShardedMap K V numShards).run T ops = .ok (rs, sm) →
      (∀ k' ∈ setKeys ops, T.eq k' k = false) → sm.Get T k = .ok ((default, false), sm)) ∧
    (∀ numShards ops rs sm k, (NewShardedMap2 K V numShards).run T ops = .ok (rs, sm) →
      (∀ k' ∈ setKeys ops, T.eq k' k = false) → sm.Get T k = .ok ((default, false), sm)) := by
  refine ⟨?_, ?_, ?_, ?_, ?_, ?_⟩
  · intro n k
    rw [NewShardedMap_eq, SM1_Get_ofContent T _ (replicate_ne_nil _ _ (coerced_ne_zero n)),
      contentGet_replicate]
  · intro n ρ
    rw [NewShardedMap_eq, SM1_Keys_ofContent, contentKeys, keysOver_replicate]
  · intro n k
    rw [NewShardedMap2_eq, SM2_Get_ofContent T _ (replicate_ne_nil _ _ (coerced_ne_zero n)),
      contentGet_replicate]
  · intro n ρ
    rw [NewShardedMap2_eq, SM2_Keys_ofContent, contentKeys, keysOver_replicate]
  · intro n ops rs sm k hrun huntouched
    rw [SM1_run_New] at hrun
    injection hrun with hrun
    injection hrun with _ hsm
    subst hsm
    rw [SM1_Get_ofContent T _ (contentRun_ne_nil T _
      (replicate_ne_nil _ _ (coerced_ne_zero n)) ops), contentGet_untouched T n ops k huntouched]
  · intro n ops rs sm k hrun huntouched
    rw [SM2_run_New] at hrun
    injection hrun with hrun
    injection hrun with _ hsm
    subst hsm
    rw [SM2_Get_ofContent T _ (contentRun_ne_nil T _
      (replicate_ne_nil _ _ (coerced_ne_zero n)) ops), contentGet_untouched T n ops k huntouched]

/-- Witness of C7: the calls of `main` in `1.main.go` up to the lookup of `"nonexistent"`. -/
theorem C7_untouched_key_not_found_witness :
    ∃ rs sm, (NewShardedMap2 GoKey Nat 16).run goKeys
        [.set (GoKey.str "alice") 42, .set (GoKey.str "bob") 19, .get (GoKey.str "alice")]
        = .ok (rs, sm) ∧
      (∀ k' ∈ setKeys [Op.set (GoKey.str "alice") 42, Op.set (GoKey.str "bob") 19,
          (Op.get (GoKey.str "alice") : Op GoKey Nat)],
        goKeys.eq k' (GoKey.str "nonexistent") = false) ∧
      sm.Get goKeys (GoKey.str "nonexistent") = .ok ((0, false), sm) := by
  have hset : ∀ k' ∈ setKeys [Op.set (GoKey.str "alice") 42, Op.set (GoKey.str "bob") 19,
      (Op.get (GoKey.str "alice") : Op GoKey Nat)],
      goKeys.eq k' (GoKey.str "nonexistent") = false := by
    intro k' hk'
    simp only [setKeys, List.mem_cons, List.mem_singleton, List.not_mem_nil, or_false] at hk'
    rcases hk' with h | h <;> subst h <;> rfl
  exact ⟨_, _, SM2_run_New goKeys 16 _, hset,
    (C7_untouched_key_not_found goKeys).2.2.2.2.2 16 _ _ _ (GoKey.str "nonexistent")
      (SM2_run_New goKeys 16 _) hset⟩

/-! ## C8: the two structs behave alike -/

/-- C8: built with the same `numShards` and driven by the same sequence of `Get`, `Set`,
`Delete` and `Keys` calls (with `range` visiting each shard in the same order), a
`ShardedMap` and a `ShardedMap2` both return from every call and return the same results:
the same pair from every `Get`, the same keys from every `Keys`. In the maps they end in,
every shard has the same key sequence, `getShardIndex` agrees on every key, and a further
`Get` or `Keys` gives the same result in both. -/
theorem C8_variants_agree {K V : Type} [Inhabited V] (T : KeyType K) (numShards : Nat)
    (ops : List (Op K V)) :
    ∃ rs sm1 sm2,
      (NewShardedMap K V numShards).run T ops = .ok (rs, sm1) ∧
      (NewShardedMap2 K V numShards).run T ops = .ok (rs, sm2) ∧
      sm1.numShards = sm2.numShards ∧
      (∀ i, sm1.shardKeys i = sm2.shardKeys i) ∧
      (∀ key, sm1.getShardIndex T key = sm2.getShardIndex T key) ∧
      (∀ key, ∃ r, sm1.Get T key = .ok (r, sm1) ∧ sm2.Get T key = .ok (r, sm2)) ∧
      (∀ ρ, ∃ ks, sm1.Keys ρ = .ok (ks, sm1) ∧ sm2.Keys ρ = .ok (ks, sm2)) := by
  have hc := contentRun_ne_nil T _
    (replicate_ne_nil _ ([] : List (K × V)) (coerced_ne_zero numShards)) ops
  refine ⟨_, _, _, SM1_run_New T numShards ops, SM2_run_New T numShards ops, rfl, ?_, ?_, ?_, ?_⟩
  · intro i
    rw [SM1_shardKeys_ofContent, SM2_shardKeys_ofContent]
  · intro key
    rw [SM1_getShardIndex_ofContent T _ hc, SM2_getShardIndex_ofContent T _ hc]
  · intro key
    exact ⟨_, SM1_Get_ofContent T _ hc key, SM2_Get_ofContent T _ hc key⟩
  · intro ρ
    exact ⟨_, SM1_Keys_ofContent ρ _, SM2_Keys_ofContent ρ _⟩

/-! ## C9: no call fails -/

/-- C9: for both structs, in every map obtained from the constructor (any `numShards`,
zero included) and used through any calls, `numShards` is not zero and is the length of the
shard slice (and of the lock slice), so for every key the index `getShardIndex` returns is
within both slices; `Get`, `Set`, `Delete` and `Keys` all return normally; and so does
every sequence of such calls on a new map. -/
theorem C9_operations_total {K V : Type} [Inhabited V] (T : KeyType K) :
    (∀ sm : ShardedMap K V, sm.Reachable T →
      sm.numShards ≠ 0 ∧ sm.shards.length = sm.numShards ∧ sm.locks.length = sm.numShards ∧
      ∀ key,
        (∃ i, sm.getShardIndex T key = .ok i ∧ i < sm.shards.length ∧ i < sm.locks.length) ∧
        (∃ r, sm.Get T key = .ok (r, sm)) ∧
        (∀ value, ∃ sm', sm.Set T key value = .ok sm') ∧
        (∃ sm', sm.Delete T key = .ok sm') ∧
        (∀ ρ, ∃ ks, sm.Keys ρ = .ok (ks, sm))) ∧
    (∀ sm : ShardedMap2 K V, sm.Reachable T →
      sm.numShards ≠ 0 ∧ sm.shards.length = sm.numShards ∧
      ∀ key,
        (∃ i, sm.getShardIndex T key = .ok i ∧ i < sm.shards.length) ∧
        (∃ r, sm.Get T key = .ok (r, sm)) ∧
        (∀ value, ∃ sm', sm.Set T key value = .ok sm') ∧
        (∃ sm', sm.Delete T key = .ok sm') ∧
        (∀ ρ, ∃ ks, sm.Keys ρ = .ok (ks, sm))) ∧
    (∀ numShards ops, ∃ rs sm, (NewShardedMap K V numShards).run T ops = .ok (rs, sm)) ∧
    (∀ numShards ops, ∃ rs sm, (NewShardedMap2 K V numShards).run T ops = .ok (rs, sm)) := by
  refine ⟨?_, ?_, fun n ops => ⟨_, _, SM1_run_New T n ops⟩,
    fun n ops => ⟨_, _, SM2_run_New T n ops⟩⟩
  · intro sm hsm
    obtain ⟨c, hc, rfl⟩ := SM1_Reachable_content T sm hsm
    have hn := length_ne_zero c hc.1
    refine ⟨hn, by simp [ShardedMap.ofContent], by simp [ShardedMap.ofContent], fun key => ?_⟩
    have hi := shardOf_lt T c.length key hn
    exact ⟨⟨_, SM1_getShardIndex_ofContent T c hc.1 key, by simpa [ShardedMap.ofContent] using hi,
        by simpa [ShardedMap.ofContent] using hi⟩,
      ⟨_, SM1_Get_ofContent T c hc.1 key⟩,
      fun value => ⟨_, SM1_Set_ofContent T c hc.1 key value⟩,
      ⟨_, SM1_Delete_ofContent T c hc.1 key⟩,
      fun ρ => ⟨_, SM1_Keys_ofContent ρ c⟩⟩
  · intro sm hsm
    obtain ⟨c, hc, rfl⟩ := SM2_Reachable_content T sm hsm
    have hn := length_ne_zero c hc.1
    refine ⟨hn, by simp [ShardedMap2.ofContent], fun key => ?_⟩
    have hi := shardOf_lt T c.length key hn
    exact ⟨⟨_, SM2_getShardIndex_ofContent T c hc.1 key,
        by simpa [ShardedMap2.ofContent] using hi⟩,
      ⟨_, SM2_Get_ofContent T c hc.1 key⟩,
      fun value => ⟨_, SM2_Set_ofContent T c hc.1 key value⟩,
      ⟨_, SM2_Delete_ofContent T c hc.1 key⟩,
      fun ρ => ⟨_, SM2_Keys_ofContent ρ c⟩⟩

/-- Witness of C9: the map built by `NewShardedMap(0)` has one shard and `Set("k1", 7)`
returns on it. -/
theorem C9_operations_total_witness :
    (NewShardedMap GoKey Nat 0).Reachable goKeys ∧
    (NewShardedMap GoKey Nat 0).numShards ≠ 0 ∧
    ∃ sm', (NewShardedMap GoKey Nat 0).Set goKeys (GoKey.str "k1") 7 = .ok sm' :=
  ⟨⟨0, [], [], rfl⟩,
    ((C9_operations_total goKeys).1 (NewShardedMap GoKey Nat 0) ⟨0, [], [], rfl⟩).1,
    (((C9_operations_total goKeys).1 (NewShardedMap GoKey Nat 0) ⟨0, [], [], rfl⟩).2.2.2
      (GoKey.str "k1")).2.2.1 7⟩

/-! ## C10: the index as a function of the key -/

/-- C10, as amended: in both structs `getShardIndex` depends on the key and on `numShards`
only: two maps with the same `numShards` give the same index, and calls made on a map in
between do not change the index of any key. For a fixed `numShards`, two keys that are
equal as map keys get the same index when they are strings, `int`s or `uint64`s, or when
`fmt.Sprint` prints the same text for both. -/
theorem C10_index_function_of_key {K V : Type} [Inhabited V] (T : KeyType K) :
    (∀ (sm sm' : ShardedMap K V) key, sm.numShards = sm'.numShards →
      sm.getShardIndex T key = sm'.getShardIndex T key) ∧
    (∀ (sm sm' : ShardedMap2 K V) key, sm.numShards = sm'.numShards →
      sm.getShardIndex T key = sm'.getShardIndex T key) ∧
    (∀ sm : ShardedMap K V, sm.Reachable T → ∀ ops rs sm', sm.run T ops = .ok (rs, sm') →
      ∀ key, sm'.getShardIndex T key = sm.getShardIndex T key) ∧
    (∀ sm : ShardedMap2 K V, sm.Reachable T → ∀ ops rs sm', sm.run T ops = .ok (rs, sm') →
      ∀ key, sm'.getShardIndex T key = sm.getShardIndex T key) ∧
    (∀ (sm : ShardedMap K V) a b, T.eq a b = true →
      (T.dyn a = .other → T.Sprint a = T.Sprint b) →
      sm.getShardIndex T a = sm.getShardIndex T b) ∧
    (∀ (sm : ShardedMap2 K V) a b, T.eq a b = true →
      (T.dyn a = .other → T.Sprint a = T.Sprint b) →
      sm.getShardIndex T a = sm.getShardIndex T b) := by
  refine ⟨?_, ?_, ?_, ?_, ?_, ?_⟩
  · intro sm sm' key h
    simp only [ShardedMap.getShardIndex, h]
  · intro sm sm' key h
    simp only [ShardedMap2.getShardIndex, h]
  · intro sm hsm ops rs sm' hrun key
    obtain ⟨c, hc, rfl⟩ := SM1_Reachable_content T sm hsm
    rw [SM1_run_ofContent T c hc.1] at hrun
    injection hrun with hrun
    injection hrun with _ hsm'
    subst hsm'
    simp only [ShardedMap.getShardIndex, ShardedMap.ofContent, contentRun_length]
  · intro sm hsm ops rs sm' hrun key
    obtain ⟨c, hc, rfl⟩ := SM2_Reachable_content T sm hsm
    rw [SM2_run_ofContent T c hc.1] at hrun
    injection hrun with hrun
    injection hrun with _ hsm'
    subst hsm'
    simp only [ShardedMap2.getShardIndex, ShardedMap2.ofContent, contentRun_length]
  · intro sm a b h hs
    simp only [ShardedMap.getShardIndex, hashKey_congr T a b h hs]
  · intro sm a b h hs
    simp only [ShardedMap2.getShardIndex, hashKey_congr T a b h hs]

/-- Witness of C10 as amended: the `int` key 5 keeps its index over a `Set` and a `Delete`,
and the `int32` key 7, hashed from its printed text, has one index. -/
theorem C10_index_function_of_key_witness :
    (∃ rs sm', (NewShardedMap GoKey Nat 16).run goKeys
        [.set (.int 5) 1, .delete (.int 7)] = .ok (rs, sm') ∧
      sm'.getShardIndex goKeys (.int 5)
        = (NewShardedMap GoKey Nat 16).getShardIndex goKeys (.int 5)) ∧
    (goKeys.eq (.sized .int32 7) (.sized .int32 7) = true ∧
      (NewShardedMap GoKey Nat 16).getShardIndex goKeys (.sized .int32 7)
        = (NewShardedMap GoKey Nat 16).getShardIndex goKeys (.sized .int32 7)) := by
  refine ⟨⟨_, _, SM1_run_New goKeys 16 _, ?_⟩, rfl, ?_⟩
  · exact (C10_index_function_of_key goKeys).2.2.1 _ ⟨16, [], [], rfl⟩ _ _ _
      (SM1_run_New goKeys 16 _) _
  · exact (C10_index_function_of_key goKeys).2.2.2.2.1 (NewShardedMap GoKey Nat 16) _ _ rfl
      (fun _ => rfl)

/-- C10 as stated fails for `float64` keys: `0` and `-0` are equal as map keys, yet among 16
shards `getShardIndex` sends `0` (printed `0`) to shard 15 and `-0` (printed `-0`) to shard
8, in both structs. -/
theorem C10_float_zeros_differ :
    goKeys.eq (.float64 (.zero false)) (.float64 (.zero true)) = true ∧
    (NewShardedMap GoKey Nat 16).getShardIndex goKeys (.float64 (.zero false)) = .ok 15 ∧
    (NewShardedMap GoKey Nat 16).getShardIndex goKeys (.float64 (.zero true)) = .ok 8 ∧
    (NewShardedMap2 GoKey Nat 16).getShardIndex goKeys (.float64 (.zero false)) = .ok 15 ∧
    (NewShardedMap2 GoKey Nat 16).getShardIndex goKeys (.float64 (.zero true)) = .ok 8 :=
  ⟨rfl, rfl, rfl, rfl, rfl⟩

/-! ## C11: string keys are hashed by FNV-1a -/

theorem fnvWrite_eq_fnv1a64From (state : Nat) (bytes : List Nat) (h : ∀ b ∈ bytes, b < 256) :
    fnvWrite state bytes = fnv1a64From state bytes := by
  induction bytes generalizing state with
  | nil => rfl
  | cons b rest ih =>
    have hb : b % 256 = b := Nat.mod_eq_of_lt (h b (List.mem_cons_self _ _))
    simp only [fnvWrite, List.foldl_cons, fnv1a64From, fnvStep, hb, prime64]
    exact ih _ (fun c hc => h c (List.mem_cons_of_mem _ hc))

/-- C11: in both structs, for every string key (with bytes `bytes`), `getShardIndex` returns
FNV-1a-64 of the bytes reduced modulo `numShards`, where FNV-1a-64 starts from the offset
basis 14695981039346656037 and for each byte in order XORs the byte into the state, then
multiplies by the prime 1099511628211 modulo `2 ^ 64`; there is no seed, so the empty string
hashes to the offset basis. -/
theorem C11_string_keys_fnv1a {K V : Type} [Inhabited V] (T : KeyType K) (key : K)
    (bytes : List Nat) (hkey : T.dyn key = .string bytes) (hbytes : ∀ b ∈ bytes, b < 256) :
    hashKey T key = fnv1a64 bytes ∧
    (∀ sm : ShardedMap K V, sm.Reachable T →
      sm.getShardIndex T key = .ok (fnv1a64 bytes % sm.numShards)) ∧
    (∀ sm : ShardedMap2 K V, sm.Reachable T →
      sm.getShardIndex T key = .ok (fnv1a64 bytes % sm.numShards)) ∧
    fnv1a64 [] = 14695981039346656037 := by
  have hh : hashKey T key = fnv1a64 bytes := by
    simp only [hashKey, hkey, fnv1a64, offset64]
    exact fnvWrite_eq_fnv1a64From _ bytes hbytes
  refine ⟨hh, ?_, ?_, rfl⟩
  · intro sm hsm
    obtain ⟨c, hc, rfl⟩ := SM1_Reachable_content T sm hsm
    rw [SM1_getShardIndex_ofContent T c hc.1, shardOf, hh]
    rfl
  · intro sm hsm
    obtain ⟨c, hc, rfl⟩ := SM2_Reachable_content T sm hsm
    rw [SM2_getShardIndex_ofContent T c hc.1, shardOf, hh]
    rfl

/-- Witness of C11: the key `"a"` among 16 shards; FNV-1a-64 of `"a"` is
`0xaf63dc4c8601ec8c`. -/
theorem C11_string_keys_fnv1a_witness :
    goKeys.dyn (GoKey.str "a") = .string [97] ∧ (∀ b ∈ [97], b < 256) ∧
    fnv1a64 [97] = 0xaf63dc4c8601ec8c ∧
    (NewShardedMap GoKey Nat 16).getShardIndex goKeys (GoKey.str "a")
      = .ok (fnv1a64 [97] % (NewShardedMap GoKey Nat 16).numShards) :=
  ⟨rfl, by decide, by decide,
    (C11_string_keys_fnv1a (V := Nat) goKeys (GoKey.str "a") [97] rfl (by decide)).2.1
      (NewShardedMap GoKey Nat 16) ⟨16, [], [], rfl⟩⟩

/-! ## C12: which keys are absorbed as little-endian bytes -/

theorem PutUint64_bytes (v : Nat) :
    PutUint64 v = [v % 256, v / 256 % 256, v / 65536 % 256, v / 16777216 % 256,
      v / 4294967296 % 256, v / 1099511627776 % 256, v / 281474976710656 % 256,
      v / 72057594037927936 % 256] := by
  simp [PutUint64, List.range_succ]

theorem PutUint64_littleEndian (v : Nat) :
    (PutUint64 v).length = 8 ∧ (∀ b ∈ PutUint64 v, b < 256) ∧
    ofLittleEndian (PutUint64 v) = v % 2 ^ 64 := by
  refine ⟨by simp [PutUint64], ?_, ?_⟩
  · intro b hb
    simp only [PutUint64, List.mem_map] at hb
    obtain ⟨i, _, rfl⟩ := hb
    exact Nat.mod_lt _ (by decide)
  · rw [PutUint64_bytes]
    simp only [ofLittleEndian]
    omega

/-- C12, as amended: in both structs `getShardIndex` absorbs a key of type `int` or `uint64`
as its little-endian representation on eight bytes (`uint64(k)` for an `int`), and a string
as its bytes; every other key is absorbed via the text `fmt.Sprint` prints, and this
includes the other fixed-width integer types (`int8` to `int64`, `uint`, `uint8` to
`uint32`, `uintptr`), absorbed as their decimal digits. -/
theorem C12_absorbed_bytes {K V : Type} (T : KeyType K) (key : K) :
    (∀ k, T.dyn key = .int k →
      hashKey T key = fnvWrite offset64 (PutUint64 (uint64OfInt k)) ∧
      (∀ sm : ShardedMap K V, sm.getShardIndex T key
        = modShards (fnvWrite offset64 (PutUint64 (uint64OfInt k))) sm.numShards) ∧
      (∀ sm : ShardedMap2 K V, sm.getShardIndex T key
        = modShards (fnvWrite offset64 (PutUint64 (uint64OfInt k))) sm.numShards)) ∧
    (∀ k, T.dyn key = .uint64 k →
      hashKey T key = fnvWrite offset64 (PutUint64 k) ∧
      (∀ sm : ShardedMap K V, sm.getShardIndex T key
        = modShards (fnvWrite offset64 (PutUint64 k)) sm.numShards) ∧
      (∀ sm : ShardedMap2 K V, sm.getShardIndex T key
        = modShards (fnvWrite offset64 (PutUint64 k)) sm.numShards)) ∧
    (∀ bytes, T.dyn key = .string bytes →
      hashKey T key = fnvWrite offset64 bytes ∧
      (∀ sm : ShardedMap K V, sm.getShardIndex T key
        = modShards (fnvWrite offset64 bytes) sm.numShards) ∧
      (∀ sm : ShardedMap2 K V, sm.getShardIndex T key
        = modShards (fnvWrite offset64 bytes) sm.numShards)) ∧
    (T.dyn key = .other →
      hashKey T key = fnvWrite offset64 (T.Sprint key) ∧
      (∀ sm : ShardedMap K V, sm.getShardIndex T key
        = modShards (fnvWrite offset64 (T.Sprint key)) sm.numShards) ∧
      (∀ sm : ShardedMap2 K V, sm.getShardIndex T key
        = modShards (fnvWrite offset64 (T.Sprint key)) sm.numShards)) ∧
    (∀ v, (PutUint64 v).length = 8 ∧ (∀ b ∈ PutUint64 v, b < 256) ∧
      ofLittleEndian (PutUint64 v) = v % 2 ^ 64) ∧
    (∀ kind k, goKeys.dyn (.sized kind k) = .other ∧
      hashKey goKeys (.sized kind k) = fnvWrite offset64 (ascii (toString k))) := by
  refine ⟨?_, ?_, ?_, ?_, PutUint64_littleEndian, fun kind k => ⟨rfl, rfl⟩⟩
  · intro k hk
    have h : hashKey T key = fnvWrite offset64 (PutUint64 (uint64OfInt k)) := by
      simp only [hashKey, hk]
    exact ⟨h, fun sm => by simp only [ShardedMap.getShardIndex, h],
      fun sm => by simp only [ShardedMap2.getShardIndex, h]⟩
  · intro k hk
    have h : hashKey T key = fnvWrite offset64 (PutUint64 k) := by
      simp only [hashKey, hk]
    exact ⟨h, fun sm => by simp only [ShardedMap.getShardIndex, h],
      fun sm => by simp only [ShardedMap2.getShardIndex, h]⟩
  · intro bytes hk
    have h : hashKey T key = fnvWrite offset64 bytes := by
      simp only [hashKey, hk]
    exact ⟨h, fun sm => by simp only [ShardedMap.getShardIndex, h],
      fun sm => by simp only [ShardedMap2.getShardIndex, h]⟩
  · intro hk
    have h : hashKey T key = fnvWrite offset64 (T.Sprint key) := by
      simp only [hashKey, hk]
    exact ⟨h, fun sm => by simp only [ShardedMap.getShardIndex, h],
      fun sm => by simp only [ShardedMap2.getShardIndex, h]⟩

/-- Witness of C12 as amended: the `int` key `-2` is absorbed as the bytes
`fe ff ff ff ff ff ff ff`. -/
theorem C12_absorbed_bytes_witness :
    goKeys.dyn (.int (-2)) = .int (-2) ∧
    PutUint64 (uint64OfInt (-2)) = [254, 255, 255, 255, 255, 255, 255, 255] ∧
    hashKey goKeys (.int (-2)) = fnvWrite offset64 (PutUint64 (uint64OfInt (-2))) :=
  ⟨rfl, by decide,
    ((C12_absorbed_bytes (V := Nat) goKeys (.int (-2))).1 (-2) rfl).1⟩

/-- C12 as stated fails for every fixed-width integer type other than `int` and `uint64`.
The `int64` key 5 takes the `default` arm: it is absorbed as the text `5` (one byte, 53),
not as its little-endian bytes `05 00 00 00 00 00 00 00`, and among 7 shards it goes to
shard 3 where the `int` key 5 goes to shard 6. The same holds of the `int32` key 5, whose
little-endian bytes would be `05 00 00 00`. -/
theorem C12_int64_absorbed_as_text :
    goKeys.dyn (.sized .int64 5) = .other ∧
    hashKey goKeys (.sized .int64 5) = fnvWrite offset64 [53] ∧
    hashKey goKeys (.sized .int64 5) ≠ fnvWrite offset64 (PutUint64 5) ∧
    hashKey goKeys (.sized .int32 5) = fnvWrite offset64 [53] ∧
    hashKey goKeys (.sized .int32 5) ≠ fnvWrite offset64 [5, 0, 0, 0] ∧
    (NewShardedMap GoKey Nat 7).getShardIndex goKeys (.sized .int64 5) = .ok 3 ∧
    (NewShardedMap GoKey Nat 7).getShardIndex goKeys (.int 5) = .ok 6 ∧
    (NewShardedMap2 GoKey Nat 7).getShardIndex goKeys (.sized .int64 5) = .ok 3 ∧
    (NewShardedMap2 GoKey Nat 7).getShardIndex goKeys (.int 5) = .ok 6 := by
  have h1 : hashKey goKeys (.sized .int64 5) = 12638130025950975024 := rfl
  have h2 : fnvWrite offset64 (PutUint64 5) = 1000385178204227360 := rfl
  have h3 : hashKey goKeys (.sized .int32 5) = 12638130025950975024 := rfl
  have h4 : fnvWrite offset64 [5, 0, 0, 0] = 3260635086596433184 := rfl
  have h5 : uint64OfInt 5 = 5 := by
    unfold uint64OfInt
    omega
  have h6 : hashKey goKeys (.int 5) = 1000385178204227360 := by
    show fnvWrite offset64 (PutUint64 (uint64OfInt 5)) = _
    rw [h5, h2]
  refine ⟨rfl, rfl, ?_, rfl, ?_, ?_, ?_, ?_, ?_⟩
  · rw [h1, h2]
    decide
  · rw [h3, h4]
    decide
  · rw [ShardedMap.getShardIndex, h1]
    rfl
  · rw [ShardedMap.getShardIndex, h6]
    rfl
  · rw [ShardedMap2.getShardIndex, h1]
    rfl
  · rw [ShardedMap2.getShardIndex, h6]
    rfl

/-! ## C19: Set and Delete leave the other keys alone -/

theorem mapaccess2_mapassign_other {K V : Type} [Inhabited V] (T : KeyType K) (m : List (K × V))
    (k k' : K) (v : V) (h : T.eq k k' = false) :
    mapaccess2 T (mapassign T m k v) k' = mapaccess2 T m k' := by
  induction m with
  | nil => simp [mapassign, mapaccess2, h]
  | cons e m ih =>
    obtain ⟨k0, v0⟩ := e
    cases h0 : T.eq k0 k
    · rw [mapassign, h0, if_neg Bool.false_ne_true, mapaccess2, mapaccess2, ih]
    · have h1 : T.eq k0 k' = false := by
        cases h2 : T.eq k0 k'
        · rfl
        · have h3 := T.eq_trans _ _ _ (T.eq_symm _ _ h0) h2
          rw [h] at h3
          exact Bool.noConfusion h3
      rw [mapassign, h0, if_pos rfl, mapaccess2, h, if_neg Bool.false_ne_true, mapaccess2, h1,
        if_neg Bool.false_ne_true]

theorem mapaccess2_mapdelete_other {K V : Type} [Inhabited V] (T : KeyType K) (m : List (K × V))
    (k k' : K) (h : T.eq k k' = false) :
    mapaccess2 T (mapdelete T m k) k' = mapaccess2 T m k' := by
  induction m with
  | nil => rfl
  | cons e m ih =>
    obtain ⟨k0, v0⟩ := e
    cases h0 : T.eq k0 k
    · have hf : mapdelete T ((k0, v0) :: m) k = (k0, v0) :: mapdelete T m k := by
        simp [mapdelete, h0]
      rw [hf, mapaccess2, mapaccess2, ih]
    · have h1 : T.eq k0 k' = false := by
        cases h2 : T.eq k0 k'
        · rfl
        · have h3 := T.eq_trans _ _ _ (T.eq_symm _ _ h0) h2
          rw [h] at h3
          exact Bool.noConfusion h3
      have hf : mapdelete T ((k0, v0) :: m) k = mapdelete T m k := by
        simp [mapdelete, h0]
      rw [hf, ih, mapaccess2, h1, if_neg Bool.false_ne_true]

theorem contentGet_contentSet_other {K V : Type} [Inhabited V] (T : KeyType K)
    (c : List (List (K × V))) (hc : c ≠ []) (k k' : K) (v : V) (h : T.eq k k' = false) :
    contentGet T (contentSet T c k v) k' = contentGet T c k' := by
  have hi := shardOf_lt T c.length k (length_ne_zero c hc)
  simp only [contentGet, contentSet, List.length_set, shardAt_set c _ _ _ hi]
  by_cases hs : shardOf T c.length k = shardOf T c.length k'
  · rw [if_pos hs, hs]
    exact mapaccess2_mapassign_other T _ k k' v h
  · rw [if_neg hs]

theorem contentGet_contentDelete_other {K V : Type} [Inhabited V] (T : KeyType K)
    (c : List (List (K × V))) (hc : c ≠ []) (k k' : K) (h : T.eq k k' = false) :
    contentGet T (contentDelete T c k) k' = contentGet T c k' := by
  have hi := shardOf_lt T c.length k (length_ne_zero c hc)
  simp only [contentGet, contentDelete, List.length_set, shardAt_set c _ _ _ hi]
  by_cases hs : shardOf T c.length k = shardOf T c.length k'
  · rw [if_pos hs, hs]
    exact mapaccess2_mapdelete_other T _ k k' h
  · rw [if_neg hs]

/-- C19: for both structs, every map reachable from the constructor and every pair of
distinct keys `k` and `k'` (`k == k'` is false), `Get(k')` returns the same value and the
same `found` after `Set(k, v)` and after `Delete(k)` as before, whether or not the two keys
share a shard; and `Get` and `Keys` leave the map as it was. -/
theorem C19_frame {K V : Type} [Inhabited V] (T : KeyType K) (k k' : K)
    (hkk : T.eq k k' = false) :
    (∀ sm : ShardedMap K V, sm.Reachable T →
      (∀ v, ∃ r sm1, sm.Get T k' = .ok (r, sm) ∧ sm.Set T k v = .ok sm1 ∧
        sm1.Get T k' = .ok (r, sm1)) ∧
      (∃ r sm1, sm.Get T k' = .ok (r, sm) ∧ sm.Delete T k = .ok sm1 ∧
        sm1.Get T k' = .ok (r, sm1)) ∧
      (∀ key, ∃ r, sm.Get T key = .ok (r, sm)) ∧
      (∀ ρ, ∃ ks, sm.Keys ρ = .ok (ks, sm))) ∧
    (∀ sm : ShardedMap2 K V, sm.Reachable T →
      (∀ v, ∃ r sm1, sm.Get T k' = .ok (r, sm) ∧ sm.Set T k v = .ok sm1 ∧
        sm1.Get T k' = .ok (r, sm1)) ∧
      (∃ r sm1, sm.Get T k' = .ok (r, sm) ∧ sm.Delete T k = .ok sm1 ∧
        sm1.Get T k' = .ok (r, sm1)) ∧
      (∀ key, ∃ r, sm.Get T key = .ok (r, sm)) ∧
      (∀ ρ, ∃ ks, sm.Keys ρ = .ok (ks, sm))) := by
  refine ⟨?_, ?_⟩
  · intro sm hsm
    obtain ⟨c, hc, rfl⟩ := SM1_Reachable_content T sm hsm
    refine ⟨fun v => ⟨_, _, SM1_Get_ofContent T c hc.1 k', SM1_Set_ofContent T c hc.1 k v, ?_⟩,
      ⟨_, _, SM1_Get_ofContent T c hc.1 k', SM1_Delete_ofContent T c hc.1 k, ?_⟩,
      fun key => ⟨_, SM1_Get_ofContent T c hc.1 key⟩, fun ρ => ⟨_, SM1_Keys_ofContent ρ c⟩⟩
    · rw [SM1_Get_ofContent T _ (ContentInv_set T c k v hc).1,
        contentGet_contentSet_other T c hc.1 k k' v hkk]
    · rw [SM1_Get_ofContent T _ (ContentInv_delete T c k hc).1,
        contentGet_contentDelete_other T c hc.1 k k' hkk]
  · intro sm hsm
    obtain ⟨c, hc, rfl⟩ := SM2_Reachable_content T sm hsm
    refine ⟨fun v => ⟨_, _, SM2_Get_ofContent T c hc.1 k', SM2_Set_ofContent T c hc.1 k v, ?_⟩,
      ⟨_, _, SM2_Get_ofContent T c hc.1 k', SM2_Delete_ofContent T c hc.1 k, ?_⟩,
      fun key => ⟨_, SM2_Get_ofContent T c hc.1 key⟩, fun ρ => ⟨_, SM2_Keys_ofContent ρ c⟩⟩
    · rw [SM2_Get_ofContent T _ (ContentInv_set T c k v hc).1,
        contentGet_contentSet_other T c hc.1 k k' v hkk]
    · rw [SM2_Get_ofContent T _ (ContentInv_delete T c k hc).1,
        contentGet_contentDelete_other T c hc.1 k k' hkk]

/-- Witness of C19: in a map of one shard, where all keys share the shard, `"alice"` keeps
its value 42 when `"bob"` is set. -/
theorem C19_frame_witness :
    goKeys.eq (GoKey.str "bob") (GoKey.str "alice") = false ∧
    ∃ rs sm, (NewShardedMap GoKey Nat 1).run goKeys [.set (GoKey.str "alice") 42]
        = .ok (rs, sm) ∧
      ∃ r sm1, sm.Get goKeys (GoKey.str "alice") = .ok (r, sm) ∧
        sm.Set goKeys (GoKey.str "bob") 19 = .ok sm1 ∧
        sm1.Get goKeys (GoKey.str "alice") = .ok (r, sm1) :=
  ⟨by decide, _, _, SM1_run_New goKeys 1 _,
    ((C19_frame goKeys (GoKey.str "bob") (GoKey.str "alice") (by decide)).1 _
      ⟨1, [.set (GoKey.str "alice") 42], _, SM1_run_New goKeys 1 _⟩).1 19⟩

/-! ## C18: the lock discipline -/

end ShardedLocks

/-! # Theorems on the aggregator -/

namespace Aggregator

/-! ## The goroutines of the group -/

theorem stepsLeft_step (task : Task) (t : Nat) (pc : Pc) (sh : Shared) (h : pc ≠ .finished) :
    (step task t pc sh).1.stepsLeft + 1 = pc.stepsLeft := by
  cases pc with
  | assign f => cases task <;> rfl
  | ret => rfl
  | record r =>
    simp only [step]
    split <;> rfl
  | finished => exact absurd rfl h

theorem stepsLeft_eq_zero (pc : Pc) (h : pc.stepsLeft = 0) : pc = .finished := by
  cases pc <;> simp [Pc.stepsLeft] at h ⊢

theorem interleave_inv (sched : Nat → Bool) (t : Nat) (I : Pc → Pc → Shared → Prop)
    (hp : ∀ p o sh, I p o sh → p ≠ .finished →
      I (step .profile t p sh).1 o (step .profile t p sh).2)
    (ho : ∀ p o sh, I p o sh → o ≠ .finished →
      I p (step .order t o sh).1 (step .order t o sh).2)
    (fuel n : Nat) (p o : Pc) (sh : Shared)
    (hfuel : p.stepsLeft + o.stepsLeft ≤ fuel) (hI : I p o sh) :
    (interleave sched t fuel n p o sh).1 = .finished ∧
    (interleave sched t fuel n p o sh).2.1 = .finished ∧
    I (interleave sched t fuel n p o sh).1 (interleave sched t fuel n p o sh).2.1
      (interleave sched t fuel n p o sh).2.2 := by
  induction fuel generalizing n p o sh with
  | zero =>
    have h1 : p = .finished := stepsLeft_eq_zero p (by omega)
    have h2 : o = .finished := stepsLeft_eq_zero o (by omega)
    subst h1 h2
    exact ⟨rfl, rfl, hI⟩
  | succ fuel ih =>
    rw [interleave]
    by_cases hfin : p = .finished ∧ o = .finished
    · rw [if_pos hfin]
      obtain ⟨h1, h2⟩ := hfin
      subst h1 h2
      exact ⟨rfl, rfl, hI⟩
    · rw [if_neg hfin]
      by_cases hc : o = .finished ∨ (p ≠ .finished ∧ sched n = true)
      · rw [if_pos hc]
        have hpn : p ≠ .finished := by
          rcases hc with h | h
          · exact fun hp' => hfin ⟨hp', h⟩
          · exact h.1
        have := stepsLeft_step .profile t p sh hpn
        exact ih _ _ _ _ (by omega) (hp p o sh hI hpn)
      · rw [if_neg hc]
        have hon : o ≠ .finished := fun h => hc (Or.inl h)
        have := stepsLeft_step .order t o sh hon
        exact ih _ _ _ _ (by omega) (ho p o sh hI hon)

theorem interleave_assigned (sched : Nat → Bool) (t : Nat) (fp fo : Fetched) (sh : Shared) :
    (interleave sched t 6 0 (.assign fp) (.assign fo) sh).1 = .finished ∧
    (interleave sched t 6 0 (.assign fp) (.assign fo) sh).2.1 = .finished ∧
    (interleave sched t 6 0 (.assign fp) (.assign fo) sh).2.2.profile = fp.value ∧
    (interleave sched t 6 0 (.assign fp) (.assign fo) sh).2.2.orders = fo.value := by
  have h := interleave_inv sched t
    (fun p o sh => (∀ f, p = .assign f → f = fp) ∧ (p.stepsLeft < 3 → sh.profile = fp.value) ∧
      (∀ f, o = .assign f → f = fo) ∧ (o.stepsLeft < 3 → sh.orders = fo.value))
    ?_ ?_ 6 0 (.assign fp) (.assign fo) sh (by simp [Pc.stepsLeft])
    ⟨fun f hf => (Pc.assign.inj hf).symm, fun hlt => by simp [Pc.stepsLeft] at hlt,
      fun f hf => (Pc.assign.inj hf).symm, fun hlt => by simp [Pc.stepsLeft] at hlt⟩
  · obtain ⟨h1, h2, -, h3, -, h4⟩ := h
    rw [h1] at h3
    rw [h2] at h4
    exact ⟨h1, h2, h3 (by simp [Pc.stepsLeft]), h4 (by simp [Pc.stepsLeft])⟩
  · intro p o sh ⟨h1, h2, h3, h4⟩ hpn
    cases p with
    | assign f =>
      have := h1 f rfl
      subst this
      exact ⟨fun f hf => by simp [step] at hf, fun _ => by simp [step], h3,
        fun hlt => by simpa [step] using h4 hlt⟩
    | ret =>
      exact ⟨fun f hf => by simp [step] at hf, fun _ => by simpa [step] using h2 (by simp [Pc.stepsLeft]), h3,
        fun hlt => by simpa [step] using h4 hlt⟩
    | record r =>
      refine ⟨fun f hf => ?_, fun _ => ?_, h3, fun hlt => ?_⟩
      · simp only [step] at hf
        split at hf <;> simp at hf
      · have := h2 (by simp [Pc.stepsLeft])
        simp only [step]
        split <;> simpa using this
      · have := h4 hlt
        simp only [step]
        split <;> simpa using this
    | finished => exact absurd rfl hpn
  · intro p o sh ⟨h1, h2, h3, h4⟩ hon
    cases o with
    | assign f =>
      have := h3 f rfl
      subst this
      exact ⟨h1, fun hlt => by simpa [step] using h2 hlt,
        fun f hf => by simp [step] at hf, fun _ => by simp [step]⟩
    | ret =>
      exact ⟨h1, fun hlt => by simpa [step] using h2 hlt,
        fun f hf => by simp [step] at hf, fun _ => by simpa [step] using h4 (by simp [Pc.stepsLeft])⟩
    | record r =>
      refine ⟨h1, fun hlt => ?_, fun f hf => ?_, fun _ => ?_⟩
      · have := h2 hlt
        simp only [step]
        split <;> simpa using this
      · simp only [step] at hf
        split at hf <;> simp at hf
      · have := h4 (by simp [Pc.stepsLeft])
        simp only [step]
        split <;> simpa using this
    | finished => exact absurd rfl hon

theorem interleave_both_fail (sched : Nat → Bool) (t : Nat) (ctx0 : Context) (e : CtxError)
    (fp fo : Fetched) (hfp : fp.err = some e) (hfo : fo.err = some e) :
    (interleave sched t 6 0 (.assign fp) (.assign fo) ⟨"", "", none, none, false, ctx0, []⟩).2.2.groupErr
      = some e ∧
    (interleave sched t 6 0 (.assign fp) (.assign fo) ⟨"", "", none, none, false, ctx0, []⟩).2.2.once
      = true ∧
    (interleave sched t 6 0 (.assign fp) (.assign fo) ⟨"", "", none, none, false, ctx0, []⟩).2.2.groupCtx
      = ctx0.cancelAt t ∧
    (∀ x ∈ (interleave sched t 6 0 (.assign fp) (.assign fo)
      ⟨"", "", none, none, false, ctx0, []⟩).2.2.returned, x.2 = some e) ∧
    (interleave sched t 6 0 (.assign fp) (.assign fo)
      ⟨"", "", none, none, false, ctx0, []⟩).2.2.returned.length = 2 := by
  have h := interleave_inv sched t
    (fun p o sh =>
      (∀ f, p = .assign f → f.err = some e) ∧ (∀ f, o = .assign f → f.err = some e) ∧
      (∀ r, p = .record r → r = some e) ∧ (∀ r, o = .record r → r = some e) ∧
      (p = .ret ∨ o = .ret → sh.err = some e) ∧
      (sh.once = false → sh.groupErr = none ∧ sh.groupCtx = ctx0 ∧ sh.returned = []) ∧
      (sh.once = true → sh.groupErr = some e ∧ sh.groupCtx = ctx0.cancelAt t) ∧
      (∀ x ∈ sh.returned, x.2 = some e) ∧
      sh.returned.length = (if p = .finished then 1 else 0) + (if o = .finished then 1 else 0))
    ?_ ?_ 6 0 (.assign fp) (.assign fo) ⟨"", "", none, none, false, ctx0, []⟩
    (by simp [Pc.stepsLeft]) ?_
  · obtain ⟨h1, h2, -, -, -, -, -, h6, h7, h8, h9⟩ := h
    rw [h1, h2] at h9
    cases hon : (interleave sched t 6 0 (.assign fp) (.assign fo)
      ⟨"", "", none, none, false, ctx0, []⟩).2.2.once with
    | false =>
      have := (h6 hon).2.2
      rw [this] at h9
      simp at h9
    | true => exact ⟨(h7 hon).1, rfl, (h7 hon).2, h8, by simpa using h9⟩
  · intro p o sh ⟨h1, h2, h3, h4, h5, h6, h7, h8, h9⟩ hpn
    cases p with
    | assign f =>
      have hf := h1 f rfl
      simp only [step]
      exact ⟨nofun, h2, nofun, h4, fun _ => hf, h6, h7, h8, by simpa using h9⟩
    | ret =>
      have he := h5 (Or.inl rfl)
      simp only [step]
      exact ⟨nofun, h2, fun r hr => (Pc.record.inj hr) ▸ he, h4, fun ho => h5 (ho.elim nofun Or.inr),
        h6, h7, h8, by simpa using h9⟩
    | record r =>
      have hr := h3 r rfl
      subst hr
      simp only [step]
      cases hon : sh.once with
      | false =>
        obtain ⟨g1, g2, g3⟩ := h6 hon
        rw [if_pos ⟨by simp, rfl⟩]
        refine ⟨nofun, h2, nofun, h4, fun ho => h5 (ho.elim nofun Or.inr), nofun,
          fun _ => ⟨rfl, by rw [← g2]⟩, ?_, ?_⟩
        · intro x hx
          rw [g3] at hx
          simp at hx
          rw [hx]
        · simp at h9 ⊢
          omega
      | true =>
        rw [if_neg (by simp)]
        refine ⟨nofun, h2, nofun, h4, fun ho => h5 (ho.elim nofun Or.inr),
          fun hc => Bool.noConfusion hc, fun _ => h7 hon, ?_, ?_⟩
        · intro x hx
          rcases List.mem_append.1 hx with hx | hx
          · exact h8 x hx
          · simp at hx
            rw [hx]
        · simp at h9 ⊢
          omega
    | finished => exact absurd rfl hpn
  · intro p o sh ⟨h1, h2, h3, h4, h5, h6, h7, h8, h9⟩ hon
    cases o with
    | assign f =>
      have hf := h2 f rfl
      simp only [step]
      exact ⟨h1, nofun, h3, nofun, fun _ => hf, h6, h7, h8, by simpa using h9⟩
    | ret =>
      have he := h5 (Or.inr rfl)
      simp only [step]
      exact ⟨h1, nofun, h3, fun r hr => (Pc.record.inj hr) ▸ he, fun ho => h5 (ho.elim Or.inl nofun),
        h6, h7, h8, by simpa using h9⟩
    | record r =>
      have hr := h4 r rfl
      subst hr
      simp only [step]
      cases hon : sh.once with
      | false =>
        obtain ⟨g1, g2, g3⟩ := h6 hon
        rw [if_pos ⟨by simp, rfl⟩]
        refine ⟨h1, nofun, h3, nofun, fun ho => h5 (ho.elim Or.inl nofun), nofun,
          fun _ => ⟨rfl, by rw [← g2]⟩, ?_, ?_⟩
        · intro x hx
          rw [g3] at hx
          simp at hx
          rw [hx]
        · simp at h9 ⊢
          omega
      | true =>
        rw [if_neg (by simp)]
        refine ⟨h1, nofun, h3, nofun, fun ho => h5 (ho.elim Or.inl nofun),
          fun hc => Bool.noConfusion hc, fun _ => h7 hon, ?_, ?_⟩
        · intro x hx
          rcases List.mem_append.1 hx with hx | hx
          · exact h8 x hx
          · simp at hx
            rw [hx]
        · simp at h9 ⊢
          omega
    | finished => exact absurd rfl hon
  · exact ⟨fun f hf => (Pc.assign.inj hf) ▸ hfp, fun f hf => (Pc.assign.inj hf) ▸ hfo, nofun, nofun,
      fun h => h.elim nofun nofun, fun _ => ⟨rfl, rfl, rfl⟩, nofun, nofun, rfl⟩

/-! ## The group -/

theorem latency_profile : (2 * Second).toNat = 2000000000 := by decide

theorem latency_order : (500 * Millisecond).toNat = 500000000 := by decide

theorem finish_profile_values (t : Nat) (f : Fetched) (sh : Shared) :
    (finish .profile t (.assign f) sh).profile = f.value ∧
    (finish .profile t (.assign f) sh).orders = sh.orders := by
  simp only [finish, step]
  split <;> exact ⟨rfl, rfl⟩

theorem finish_order_values (t : Nat) (f : Fetched) (sh : Shared) :
    (finish .order t (.assign f) sh).profile = sh.profile ∧
    (finish .order t (.assign f) sh).orders = f.value := by
  simp only [finish, step]
  split <;> exact ⟨rfl, rfl⟩

theorem runGroup_assigned (ctx : Context) (id : Int) (run : Run) :
    (runGroup ctx id run).allFinished = true ∧
    (runGroup ctx id run).shared.profile = (runGroup ctx id run).profileFetch.value ∧
    (runGroup ctx id run).shared.orders = (runGroup ctx id run).orderFetch.value := by
  unfold runGroup
  simp only
  split
  · exact ⟨rfl, ((finish_order_values _ _ _).1).trans (finish_profile_values _ _ _).1,
      (finish_order_values _ _ _).2⟩
  · split
    · exact ⟨rfl, (finish_profile_values _ _ _).1,
        ((finish_profile_values _ _ _).2).trans (finish_order_values _ _ _).2⟩
    · obtain ⟨h1, h2, h3, h4⟩ := interleave_assigned run.schedule
        (fetchProfile ctx id run.profileTimerFirst).time
        (fetchProfile ctx id run.profileTimerFirst) (fetchOrder ctx id run.orderTimerFirst)
        ⟨"", "", none, none, false, ctx, []⟩
      exact ⟨by simp [h1, h2], h3, h4⟩

theorem runGroup_both_fail (ctx : Context) (id : Int) (run : Run) (d : Nat) (e : CtxError)
    (hctx : ctx.done = some (d, e))
    (hd : d < 500000000 ∨ (d = 500000000 ∧ run.orderTimerFirst = false)) :
    (runGroup ctx id run).profileFetch = ⟨d, "", some e⟩ ∧
    (runGroup ctx id run).orderFetch = ⟨d, "", some e⟩ ∧
    (runGroup ctx id run).endTime = d ∧
    (runGroup ctx id run).allFinished = true ∧
    (runGroup ctx id run).shared.groupErr = some e ∧
    (runGroup ctx id run).shared.once = true ∧
    (runGroup ctx id run).shared.groupCtx = ctx.cancelAt d ∧
    (∀ x ∈ (runGroup ctx id run).shared.returned, x.2 = some e) ∧
    (runGroup ctx id run).shared.returned.length = 2 := by
  have hfp : fetchProfile ctx id run.profileTimerFirst = ⟨d, "", some e⟩ := by
    have h1 : ¬ 2000000000 < d := by omega
    have h2 : d < 2000000000 := by omega
    simp [fetchProfile, selectFetch, hctx, latency_profile, h1, h2]
  have hfo : fetchOrder ctx id run.orderTimerFirst = ⟨d, "", some e⟩ := by
    rcases hd with hd | ⟨hd, hb⟩
    · have h1 : ¬ 500000000 < d := by omega
      simp [fetchOrder, selectFetch, hctx, latency_order, h1, hd]
    · simp [fetchOrder, selectFetch, hctx, latency_order, hd, hb]
  obtain ⟨g1, g2, g3, g4, g5⟩ := interleave_both_fail run.schedule d ctx e
    ⟨d, "", some e⟩ ⟨d, "", some e⟩ rfl rfl
  obtain ⟨f1, f2, -, -⟩ := interleave_assigned run.schedule d
    ⟨d, "", some e⟩ ⟨d, "", some e⟩ ⟨"", "", none, none, false, ctx, []⟩
  unfold runGroup
  simp only [hfp, hfo, lt_self_iff_false, if_false]
  exact ⟨trivial, trivial, trivial, by simp [f1, f2], g1, g2, g3, g4, g5⟩

theorem Aggregate_logger (a : UserAggregator) (l : Logger) (hlog : a.logger = some l)
    (ctx : Context) (id : Int) (run : Run) :
    a.Aggregate ctx id run = .ok
      (match (runGroup (ctx.WithTimeout a.timeout run.parentFirst) id run).shared.groupErr with
      | some err => ⟨"", some err,
          (runGroup (ctx.WithTimeout a.timeout run.parentFirst) id run).endTime,
          [⟨"ERROR", err.Error⟩]⟩
      | none =>
        ⟨(runGroup (ctx.WithTimeout a.timeout run.parentFirst) id run).profileFetch.value
            ++ " | "
            ++ (runGroup (ctx.WithTimeout a.timeout run.parentFirst) id run).orderFetch.value,
          none, (runGroup (ctx.WithTimeout a.timeout run.parentFirst) id run).endTime,
          [⟨"INFO", "fetched seccess"⟩]⟩) := by
  obtain ⟨h1, h2, h3⟩ := runGroup_assigned (ctx.WithTimeout a.timeout run.parentFirst) id run
  unfold UserAggregator.Aggregate
  simp only [h1, hlog, logCall, h2, h3, Bool.true_eq_false, if_false]
  cases (runGroup (ctx.WithTimeout a.timeout run.parentFirst) id run).shared.groupErr <;> rfl

theorem Aggregate_nil_logger (a : UserAggregator) (hlog : a.logger = none)
    (ctx : Context) (id : Int) (run : Run) :
    a.Aggregate ctx id run = .error .nilDereference := by
  obtain ⟨h1, -, -⟩ := runGroup_assigned (ctx.WithTimeout a.timeout run.parentFirst) id run
  unfold UserAggregator.Aggregate
  simp only [h1, hlog, logCall, Bool.true_eq_false, if_false]
  cases (runGroup (ctx.WithTimeout a.timeout run.parentFirst) id run).shared.groupErr <;> rfl

/-! ## C13: a timeout of two seconds or more -/

theorem selectFetchAt_zero (latency : Nat) (value : String) (ctx : Context) (b : Bool) :
    selectFetchAt 0 latency value ctx b = selectFetch latency value ctx b := by
  simp [selectFetchAt, selectFetch]

theorem runGroupAt_zero (ctx : Context) (id : Int) (run : Run) :
    runGroupAt ⟨0, 0⟩ ctx id run = runGroup ctx id run := by
  simp [runGroupAt, runGroup, fetchProfileAt, fetchOrderAt, fetchProfile, fetchOrder,
    selectFetchAt_zero]

theorem AggregateAt_zero (a : UserAggregator) (ctx : Context) (id : Int) (run : Run) :
    a.AggregateAt ⟨0, 0⟩ ctx id run = a.Aggregate ctx id run := by
  simp [UserAggregator.AggregateAt, UserAggregator.Aggregate, runGroupAt_zero]

/-- C14: with a timeout of one second and a caller scope that is never cancelled, for every
id and every run, `fetchOrder` returns its value after half a second, `fetchProfile` gives up
at the deadline, one second after the call, with `DeadlineExceeded`, and the group ends at
that moment with that error; an aggregator with a logger, as `main` builds it, then returns
the empty string and `DeadlineExceeded`, one second after the call and not two. -/
theorem C14_timeout_one_second (a : UserAggregator) (ctx : Context) (hctx : ctx.done = none)
    (ht : a.timeout = 1 * Second) (id : Int) (run : Run) :
    (runGroup (ctx.WithTimeout a.timeout run.parentFirst) id run).orderFetch
      = ⟨500000000, "Order: 5", none⟩ ∧
    (runGroup (ctx.WithTimeout a.timeout run.parentFirst) id run).profileFetch
      = ⟨1000000000, "", some .DeadlineExceeded⟩ ∧
    (runGroup (ctx.WithTimeout a.timeout run.parentFirst) id run).shared.groupErr
      = some .DeadlineExceeded ∧
    (runGroup (ctx.WithTimeout a.timeout run.parentFirst) id run).endTime = 1000000000 ∧
    (∀ l, a.logger = some l →
      a.Aggregate ctx id run = .ok ⟨"", some .DeadlineExceeded, 1000000000,
        [⟨"ERROR", "context deadline exceeded"⟩]⟩) := by
  have h3 : a.timeout.toNat = 1000000000 := by
    rw [ht]
    decide
  refine ⟨?_, ?_, ?_, ?_, ?_⟩
  · simp [Context.WithTimeout, hctx, runGroup, fetchProfile,
      fetchOrder, selectFetch, latency_profile, latency_order, h3, finish, step]
  · simp [Context.WithTimeout, hctx, runGroup, fetchProfile,
      fetchOrder, selectFetch, latency_profile, latency_order, h3, finish, step]
  · simp [Context.WithTimeout, hctx, runGroup, fetchProfile,
      fetchOrder, selectFetch, latency_profile, latency_order, h3, finish, step]
  · simp [Context.WithTimeout, hctx, runGroup, fetchProfile,
      fetchOrder, selectFetch, latency_profile, latency_order, h3, finish, step]
  · intro l hlog
    simp [UserAggregator.Aggregate, Context.WithTimeout, hctx, runGroup, fetchProfile,
      fetchOrder, selectFetch, latency_profile, latency_order, h3, finish, step, logCall,
      hlog, bind, Except.bind, pure, Except.pure, Context.cancelAt, CtxError.Error]

/-- An instance of C14: the aggregator of `main`. -/
theorem C14_timeout_one_second_witness :
    (NewUserAggregator [WithLogger, WithTimeout (1 * Second)]).timeout = 1 * Second ∧
    (NewUserAggregator [WithLogger, WithTimeout (1 * Second)]).Aggregate .Background 1
        ⟨true, true, true, profileFirst⟩
      = .ok ⟨"", some .DeadlineExceeded, 1000000000,
          [⟨"ERROR", "context deadline exceeded"⟩]⟩ :=
  ⟨rfl, (C14_timeout_one_second (NewUserAggregator [WithLogger, WithTimeout (1 * Second)])
    .Background rfl rfl 1 ⟨true, true, true, profileFirst⟩).2.2.2.2 .Default rfl⟩

/-! ## C15: one outcome, never a partial result -/

/-- C15 fails in the code. With a timeout of half a second the deadline and the timer of
`fetchOrder` are due at the same instant. In the run where `fetchOrder` takes its timer,
`fetchProfile` fails with `DeadlineExceeded` and `fetchOrder` succeeds, both at that
instant; when the profile closure assigns `err`, then the order closure assigns `err`, and
only then the profile closure executes `return err`, both closures return nil. `Aggregate`
returns `" | Order: 5"`, one fetched value only, with a nil error. -/
theorem C15_error_swallowed :
    (runGroup (Context.Background.WithTimeout (500 * Millisecond) true) 1
        ⟨true, true, true, scheduleOf [true, false, true, false]⟩).profileFetch
      = ⟨500000000, "", some .DeadlineExceeded⟩ ∧
    (runGroup (Context.Background.WithTimeout (500 * Millisecond) true) 1
        ⟨true, true, true, scheduleOf [true, false, true, false]⟩).orderFetch
      = ⟨500000000, "Order: 5", none⟩ ∧
    (runGroup (Context.Background.WithTimeout (500 * Millisecond) true) 1
        ⟨true, true, true, scheduleOf [true, false, true, false]⟩).shared.returned
      = [(.order, none), (.profile, none)] ∧
    (NewUserAggregator [WithLogger, WithTimeout (500 * Millisecond)]).Aggregate .Background 1
        ⟨true, true, true, scheduleOf [true, false, true, false]⟩
      = .ok ⟨" | Order: 5", none, 500000000, [⟨"INFO", "fetched seccess"⟩]⟩ := by
  have h1 : (NewUserAggregator [WithLogger, WithTimeout (500 * Millisecond)]).timeout
      = 500 * Millisecond := rfl
  have h2 : (NewUserAggregator [WithLogger, WithTimeout (500 * Millisecond)]).logger
      = some .Default := rfl
  have h3 : Context.Background.WithTimeout (500 * Millisecond) true
      = ⟨some (500000000, .DeadlineExceeded)⟩ := by
    simp [Context.WithTimeout, Context.Background, latency_order]
  have h4 : runGroup ⟨some (500000000, .DeadlineExceeded)⟩ 1
        ⟨true, true, true, scheduleOf [true, false, true, false]⟩
      = ⟨⟨500000000, "", some .DeadlineExceeded⟩, ⟨500000000, "Order: 5", none⟩,
          ⟨"", "Order: 5", none, none, false, ⟨some (500000000, .DeadlineExceeded)⟩,
            [(.order, none), (.profile, none)]⟩, 500000000, true⟩ := by
    simp [runGroup, fetchProfile, fetchOrder, selectFetch, latency_profile, latency_order,
      interleave, step, scheduleOf]
  refine ⟨by rw [h3, h4], by rw [h3, h4], by rw [h3, h4], ?_⟩
  unfold UserAggregator.Aggregate
  simp only [h1, h2, h3, h4, logCall]
  rfl

/-! ## C16: no logger -/

/-- C16 fails in the code. An aggregator built without `WithLogger` has a nil logger, and
`Aggregate` calls a method of it on both paths: with a timeout of three seconds (the success
path) and with one of one second (the error path) the call panics on the nil pointer, in
every run, where the same aggregator with a logger returns the combined string, or the empty
string and `DeadlineExceeded`. -/
theorem C16_nil_logger_panics :
    (NewUserAggregator [WithTimeout (3 * Second)]).logger = none ∧
    (∀ run, (NewUserAggregator [WithTimeout (3 * Second)]).Aggregate .Background 1 run
      = .error .nilDereference) ∧
    (∀ run, (NewUserAggregator [WithLogger, WithTimeout (3 * Second)]).Aggregate .Background 1 run
      = .ok ⟨"Name: Alice | Order: 5", none, 2000000000, [⟨"INFO", "fetched seccess"⟩]⟩) ∧
    (∀ run, (NewUserAggregator [WithTimeout (1 * Second)]).Aggregate .Background 1 run
      = .error .nilDereference) ∧
    (∀ run, (NewUserAggregator [WithLogger, WithTimeout (1 * Second)]).Aggregate .Background 1 run
      = .ok ⟨"", some .DeadlineExceeded, 1000000000,
          [⟨"ERROR", "context deadline exceeded"⟩]⟩) := by
  have three : ∀ a : UserAggregator, a.logger = some .Default → a.timeout.toNat = 3000000000 →
      ∀ run, a.Aggregate .Background 1 run
        = .ok ⟨"Name: Alice | Order: 5", none, 2000000000, [⟨"INFO", "fetched seccess"⟩]⟩ := by
    intro a hlog h3 run
    simp [UserAggregator.Aggregate, Context.WithTimeout, Context.Background, runGroup,
      fetchProfile, fetchOrder, selectFetch, latency_profile, latency_order, h3, finish, step,
      logCall, hlog, bind, Except.bind, pure, Except.pure]
  have one : ∀ a : UserAggregator, a.logger = some .Default → a.timeout.toNat = 1000000000 →
      ∀ run, a.Aggregate .Background 1 run
        = .ok ⟨"", some .DeadlineExceeded, 1000000000,
            [⟨"ERROR", "context deadline exceeded"⟩]⟩ := by
    intro a hlog h3 run
    simp [UserAggregator.Aggregate, Context.WithTimeout, Context.Background, runGroup,
      fetchProfile, fetchOrder, selectFetch, latency_profile, latency_order, h3, finish, step,
      logCall, hlog, bind, Except.bind, pure, Except.pure, Context.cancelAt, CtxError.Error]
  exact ⟨rfl, fun run => Aggregate_nil_logger _ rfl _ _ run, three _ rfl (by decide),
    fun run => Aggregate_nil_logger _ rfl _ _ run, one _ rfl (by decide)⟩

/-! ## C17: both fetches fail -/

theorem foldl_WithLogger (options : List AggOption) (h : ∀ o ∈ options, o = WithLogger)
    (a : UserAggregator) :
    (options.foldl (fun userAggr opt => opt userAggr) a).timeout = a.timeout ∧
    (options ≠ [] → (options.foldl (fun userAggr opt => opt userAggr) a).logger
      = some .Default) := by
  induction options generalizing a with
  | nil => exact ⟨rfl, fun hne => absurd rfl hne⟩
  | cons o rest ih =>
    have ho : o = WithLogger := h o (List.mem_cons_self _ _)
    have hrest : ∀ o ∈ rest, o = WithLogger := fun x hx => h x (List.mem_cons_of_mem _ hx)
    subst ho
    refine ⟨(ih hrest _).1, fun _ => ?_⟩
    rw [List.foldl_cons]
    by_cases hr : rest = []
    · subst hr
      rfl
    · exact (ih hrest _).2 hr

/-- C20, as amended: an aggregator built with `WithLogger` and no `WithTimeout` has timeout
0, so the deadline has passed when the fetches start: for every id, every run and every
caller scope that is not already cancelled at the call, `Aggregate` returns at once the empty
string and `DeadlineExceeded`, never the combined string. Options are applied in the order
given: after any options, `WithTimeout t` followed only by `WithLogger` leaves timeout `t`. -/
theorem C20_no_timeout (options : List AggOption) (hopt : ∀ o ∈ options, o = WithLogger)
    (hne : options ≠ []) (ctx : Context) (hctx : ctx.done ≠ some (0, .Canceled))
    (id : Int) (run : Run) (before after : List AggOption) (t : Int)
    (hafter : ∀ o ∈ after, o = WithLogger) :
    (NewUserAggregator options).timeout = 0 ∧
    (NewUserAggregator options).Aggregate ctx id run
      = .ok ⟨"", some .DeadlineExceeded, 0, [⟨"ERROR", "context deadline exceeded"⟩]⟩ ∧
    (NewUserAggregator (before ++ WithTimeout t :: after)).timeout = t := by
  obtain ⟨h1, h2⟩ := foldl_WithLogger options hopt ⟨0, none⟩
  have hlog : (NewUserAggregator options).logger = some .Default := h2 hne
  have hdone : ((ctx.WithTimeout (NewUserAggregator options).timeout run.parentFirst)).done
      = some (0, .DeadlineExceeded) := by
    unfold NewUserAggregator
    rw [h1]
    unfold Context.WithTimeout
    rcases hc : ctx.done with _ | ⟨p, e⟩
    · rfl
    · rcases Nat.eq_zero_or_pos p with h0 | h0
      · subst h0
        cases e with
        | Canceled => exact absurd hc hctx
        | DeadlineExceeded => rfl
      · simp [h0]
  obtain ⟨-, -, g3, -, g5, -⟩ := runGroup_both_fail _ id run 0 .DeadlineExceeded hdone
    (Or.inl (by decide))
  refine ⟨h1, ?_, ?_⟩
  · rw [Aggregate_logger (NewUserAggregator options) .Default hlog, g5, g3]
    rfl
  · unfold NewUserAggregator
    rw [List.foldl_append, List.foldl_cons]
    exact (foldl_WithLogger after hafter _).1

/-- An instance of C20 as amended. -/
theorem C20_no_timeout_witness :
    (NewUserAggregator [WithLogger]).Aggregate .Background 7 ⟨true, true, true, profileFirst⟩
      = .ok ⟨"", some .DeadlineExceeded, 0, [⟨"ERROR", "context deadline exceeded"⟩]⟩ ∧
    (NewUserAggregator
      ([WithTimeout (3 * Second)] ++ WithTimeout (1 * Second) :: [WithLogger])).timeout
      = 1 * Second :=
  ⟨(C20_no_timeout [WithLogger] (by simp) (by simp) .Background (by simp [Context.Background])
      7 ⟨true, true, true, profileFirst⟩ [] [] 0 (by simp)).2.1,
    (C20_no_timeout [WithLogger] (by simp) (by simp) .Background (by simp [Context.Background])
      7 ⟨true, true, true, profileFirst⟩ [WithTimeout (3 * Second)] [WithLogger] (1 * Second)
      (by simp)).2.2⟩

/-- C20 as stated fails for a caller scope that is already cancelled at the call: the
context derived from it carries the error of the caller scope, and `Aggregate` returns
`Canceled`, not `DeadlineExceeded`. -/
theorem C20_cancelled_caller :
    (NewUserAggregator [WithLogger]).Aggregate ⟨some (0, .Canceled)⟩ 1
        ⟨true, true, true, profileFirst⟩
      = .ok ⟨"", some .Canceled, 0, [⟨"ERROR", "context canceled"⟩]⟩ := by
  have hdone : (Context.WithTimeout ⟨some (0, .Canceled)⟩ (NewUserAggregator [WithLogger]).timeout
      true).done = some (0, .Canceled) := rfl
  obtain ⟨-, -, g3, -, g5, -⟩ := runGroup_both_fail _ 1 ⟨true, true, true, profileFirst⟩ 0
    .Canceled hdone (Or.inl (by decide))
  rw [Aggregate_logger _ .Default rfl, g5, g3]
  rfl

end Aggregator
